import Mathlib

/-!
# A verification model of the `terminal_chess` engine (`main.go`)

This file gives a shallow embedding of the chess-rules core of the
repository: the board state, move validation (including castling and
en passant), move application and reversal, and the check / checkmate /
stalemate detectors.

Modelling conventions:

* Go `int` becomes `Int`; the `[8][8]*Piece` grid becomes a
  `List (List (Option Piece))` and every grid access goes through
  `getSq` / `setSq`, which return `none` when the index is outside
  `[0,8)` — the Lean rendering of a Go "index out of range" panic.
  All partiality (panics, or non-termination of the mutually recursive
  check detection) is modelled by `Option`, with `none` meaning the
  Go program does not return normally.
* Pieces are compared by value; the Go heap mutation of a piece's
  `HasMoved` flag is rendered by storing the updated piece value at the
  square that holds it.
* `IsInCheck`, `ValidateMove`, `IsValidPieceMove` and `validateCastling`
  are mutually recursive in the source (castling validation runs the
  check detector, which runs full move validation, which can run
  castling validation again).  The knot is tied with a fuel parameter
  that is consumed exactly on entry to `IsInCheck`: with fuel `n + 1`,
  nested `IsInCheck` activations run at fuel `n`, and fuel `0` returns
  `none`.  The helper functions are parameterised by the `inCheck`
  oracle they may call.
* The source functions mutate the board in place (castling validation
  temporarily displaces the king; the trial moves of check-mate and
  stale-mate detection apply and undo moves).  Every such function here
  threads the board value through and returns the board it leaves
  behind, so that restoration — or its failure — is observable.
-/

inductive Player where
  | white
  | black
deriving DecidableEq, Repr

inductive PieceType where
  | pawn
  | rook
  | knight
  | bishop
  | queen
  | king
deriving DecidableEq, Repr

structure Piece where
  player : Player
  kind : PieceType
  hasMoved : Bool
deriving DecidableEq, Repr

structure Position where
  row : Int
  col : Int
deriving DecidableEq, Repr

/-- The `Move` record of the source: source and target square, the moving
piece, the piece captured at the target square (if any), and the
en-passant / castling flags. -/
structure Move where
  fromPos : Position
  toPos : Position
  piece : Option Piece
  captured : Option Piece
  isEnPassant : Bool
  isCastling : Bool
deriving DecidableEq, Repr

/-- The `Board` struct: the 8×8 grid, the last applied move (for
en passant), the move counter, and the cached king positions. -/
structure Board where
  squares : List (List (Option Piece))
  lastMove : Move
  moveCount : Int
  whiteKing : Position
  blackKing : Position
deriving DecidableEq, Repr

/-- The distinct rejection reasons of the engine (the Go error values). -/
inductive ChessError where
  | noPieceAtSource
  | wrongTurn
  | outOfBounds
  | friendlyCapture
  | invalidPieceMove
  | selfCheck
deriving DecidableEq, Repr

/-- Go `abs` from the source. -/
def intAbs (x : Int) : Int := if x < 0 then -x else x

/-- Go `sign` from the source. -/
def intSign (x : Int) : Int := if x < 0 then -1 else if 0 < x then 1 else 0

/-- `isValidPosition` from the source. -/
def isValidPosition (p : Position) : Bool :=
  0 ≤ p.row && p.row < 8 && 0 ≤ p.col && p.col < 8

/-- Read grid cell `(r, c)`.  `none` models the Go index-out-of-range
panic on `b.squares[r][c]`. -/
def getSq (b : Board) (r c : Int) : Option (Option Piece) :=
  if 0 ≤ r ∧ r < 8 ∧ 0 ≤ c ∧ c < 8 then
    match b.squares[r.toNat]? with
    | some row => row[c.toNat]?
    | none => none
  else none

/-- Write grid cell `(r, c)`.  `none` models the Go index-out-of-range
panic on `b.squares[r][c] = v`. -/
def setSq (b : Board) (r c : Int) (v : Option Piece) : Option Board :=
  if 0 ≤ r ∧ r < 8 ∧ 0 ≤ c ∧ c < 8 then
    match b.squares[r.toNat]? with
    | some row =>
        some { b with squares := b.squares.set r.toNat (row.set c.toNat v) }
    | none => none
  else none

/-- `canEnPassant` from the source: pure test on the recorded last move
and the capturing pawn's rank. -/
def canEnPassant (b : Board) (oldPos newPos : Position) (player : Player) : Bool :=
  match b.lastMove.piece with
  | none => false
  | some lp =>
    if lp.kind ≠ PieceType.pawn then false
    else if intAbs (b.lastMove.fromPos.row - b.lastMove.toPos.row) ≠ 2 then false
    else
      let correctRank : Int := if player = Player.black then 4 else 3
      if oldPos.row ≠ correctRank then false
      else b.lastMove.toPos.col == newPos.col && b.lastMove.toPos.row == oldPos.row

/-- The walking loop of `isPathClear`, with fuel (the Go loop walks unit
steps until it reaches the target; on the aligned in-bounds inputs it is
called with, at most 7 steps occur, so fuel 16 is never exhausted). -/
def pathClearGo (b : Board) (dr dc : Int) (tgt : Position) :
    Nat → Int → Int → Option Bool
  | 0, _, _ => none
  | n + 1, r, c =>
    if r = tgt.row ∧ c = tgt.col then some true
    else
      match getSq b r c with
      | none => none
      | some (some _) => some false
      | some none => pathClearGo b dr dc tgt n (r + dr) (c + dc)

/-- `isPathClear` from the source. -/
def isPathClear (b : Board) (oldPos newPos : Position) : Option Bool :=
  let dr := intSign (newPos.row - oldPos.row)
  let dc := intSign (newPos.col - oldPos.col)
  pathClearGo b dr dc newPos 16 (oldPos.row + dr) (oldPos.col + dc)

/-- `validatePawnMove` from the source.  Returns the validation verdict
together with the (possibly en-passant-flagged) move record. -/
def validatePawnMove (b : Board) (piece : Piece) (oldPos newPos : Position)
    (dr dc : Int) (m : Move) : Option (Bool × Move) :=
  let forward : Int := if piece.player = Player.black then 1 else -1
  -- capture branch (third `if` of the source)
  let captureStep : Option (Bool × Move) :=
    if dr = forward ∧ intAbs dc = 1 then
      match getSq b newPos.row newPos.col with
      | none => none
      | some (some _) => some (true, m)
      | some none =>
        if canEnPassant b oldPos newPos piece.player then
          some (true, { m with isEnPassant := true })
        else some (false, m)
    else some (false, m)
  -- first-move double step (second `if` of the source)
  let doubleStep : Option (Bool × Move) :=
    if piece.hasMoved = false ∧ dc = 0 ∧ dr = 2 * forward then
      match getSq b newPos.row newPos.col with
      | none => none
      | some (some _) => captureStep
      | some none =>
        match getSq b (oldPos.row + forward) oldPos.col with
        | none => none
        | some none => some (true, m)
        | some (some _) => captureStep
    else captureStep
  -- normal forward move (first `if` of the source)
  if dc = 0 ∧ dr = forward then
    match getSq b newPos.row newPos.col with
    | none => none
    | some none => some (true, m)
    | some (some _) => doubleStep
  else doubleStep

/-- The rook-path loop of `validateCastling`
(`for col := startCol; col < endCol; col++`), with ample fuel. -/
def castlePathClear (b : Board) (row : Int) :
    Nat → Int → Int → Option Bool
  | 0, _, _ => none
  | n + 1, col, endCol =>
    if col < endCol then
      match getSq b row col with
      | none => none
      | some (some _) => some false
      | some none => castlePathClear b row n (col + 1) endCol
    else some true

/-- The check-and-transit tail of `validateCastling`: reject if the king
is currently in check, then provisionally place the king on its transit
square, run the check detector, restore the two squares, and reject if
the transit test reported check. -/
def castleProvisional (inCheck : Board → Player → Option (Board × Bool))
    (b : Board) (piece : Piece) (oldPos : Position) (intermediateCol : Int)
    (m : Move) : Option (Board × Bool × Move) :=
  match inCheck b piece.player with
  | none => none
  | some (b0, true) => some (b0, false, m)
  | some (b0, false) =>
    match setSq b0 oldPos.row intermediateCol (some piece) with
    | none => none
    | some b1 =>
      match setSq b1 oldPos.row oldPos.col none with
      | none => none
      | some b2 =>
        match inCheck b2 piece.player with
        | none => none
        | some (b3, inChk) =>
          match setSq b3 oldPos.row oldPos.col (some piece) with
          | none => none
          | some b4 =>
            match setSq b4 oldPos.row intermediateCol none with
            | none => none
            | some b5 =>
              if inChk then some (b5, false, m)
              else some (b5, true, { m with isCastling := true })

/-- `validateCastling` from the source, parameterised by the `IsInCheck`
oracle it calls.  The board is threaded: the king is provisionally
placed on its transit square, the oracle is run, and the two squares are
written back. -/
def validateCastlingWith (inCheck : Board → Player → Option (Board × Bool))
    (b : Board) (piece : Piece) (oldPos newPos : Position) (m : Move) :
    Option (Board × Bool × Move) :=
  if piece.hasMoved then some (b, false, m)
  else if ¬(oldPos.row = newPos.row ∧ intAbs (newPos.col - oldPos.col) = 2) then
    some (b, false, m)
  else
    let row := oldPos.row
    let isKingSide := oldPos.col < newPos.col
    let rookCol : Int := if isKingSide then 7 else 0
    match getSq b row rookCol with
    | none => none
    | some none => some (b, false, m)
    | some (some rook) =>
      if rook.kind ≠ PieceType.rook ∨ rook.hasMoved then some (b, false, m)
      else
        let startCol := min oldPos.col rookCol + 1
        let endCol := max oldPos.col rookCol
        match castlePathClear b row 16 startCol endCol with
        | none => none
        | some false => some (b, false, m)
        | some true =>
          castleProvisional inCheck b piece oldPos
            (oldPos.col + intSign (newPos.col - oldPos.col)) m

/-- `IsValidPieceMove` from the source (oracle-parameterised; `none` for
the nil-pointer dereference when the square holds no piece). -/
def IsValidPieceMoveWith (inCheck : Board → Player → Option (Board × Bool))
    (b : Board) (pieceOpt : Option Piece) (oldPos newPos : Position) (m : Move) :
    Option (Board × Bool × Move) :=
  match pieceOpt with
  | none => none
  | some piece =>
    let dr := newPos.row - oldPos.row
    let dc := newPos.col - oldPos.col
    match piece.kind with
    | PieceType.pawn =>
      match validatePawnMove b piece oldPos newPos dr dc m with
      | none => none
      | some (ok, m') => some (b, ok, m')
    | PieceType.rook =>
      if dr = 0 ∨ dc = 0 then
        match isPathClear b oldPos newPos with
        | none => none
        | some ok => some (b, ok, m)
      else some (b, false, m)
    | PieceType.knight =>
      some (b, ((intAbs dr = 2 ∧ intAbs dc = 1) ∨ (intAbs dr = 1 ∧ intAbs dc = 2) : Bool), m)
    | PieceType.bishop =>
      if intAbs dr = intAbs dc then
        match isPathClear b oldPos newPos with
        | none => none
        | some ok => some (b, ok, m)
      else some (b, false, m)
    | PieceType.queen =>
      if dr = 0 ∨ dc = 0 ∨ intAbs dr = intAbs dc then
        match isPathClear b oldPos newPos with
        | none => none
        | some ok => some (b, ok, m)
      else some (b, false, m)
    | PieceType.king =>
      if intAbs dr ≤ 1 ∧ intAbs dc ≤ 1 then some (b, true, m)
      else validateCastlingWith inCheck b piece oldPos newPos m

/-- `ValidateMove` from the source (oracle-parameterised).  Both grid
reads happen before the bounds test, exactly as in the source, so an
out-of-bounds destination yields `none` (a panic), not the
`outOfBounds` error. -/
def ValidateMoveWith (inCheck : Board → Player → Option (Board × Bool))
    (b : Board) (oldPos newPos : Position) (currentPlayer : Player) :
    Option (Board × Except ChessError Move) :=
  match getSq b oldPos.row oldPos.col with
  | none => none
  | some pieceOpt =>
    match getSq b newPos.row newPos.col with
    | none => none
    | some capturedOpt =>
      let m : Move := ⟨oldPos, newPos, pieceOpt, capturedOpt, false, false⟩
      if isValidPosition newPos = false then some (b, Except.error ChessError.outOfBounds)
      else
        let afterFriendly : Option (Board × Except ChessError Move) :=
          match IsValidPieceMoveWith inCheck b pieceOpt oldPos newPos m with
          | none => none
          | some (b', ok, m') =>
            if ok then some (b', Except.ok m')
            else some (b', Except.error ChessError.invalidPieceMove)
        match capturedOpt with
        | some cap =>
          if cap.player = currentPlayer then some (b, Except.error ChessError.friendlyCapture)
          else afterFriendly
        | none => afterFriendly

/-- The row-major list of the 64 grid positions, in the scan order of
the source's nested `for` loops. -/
def scanPositions : List Position :=
  (List.range 8).flatMap fun r => (List.range 8).map fun c => ⟨(r : Int), (c : Int)⟩

/-- The body of `IsInCheck`'s scan: for each cell holding an opposing
piece, run `ValidateMove` to the king square and, when it succeeds, the
extra direct `IsValidPieceMove` call of the source; report `true` on the
first hit. -/
def inCheckScan (inCheck : Board → Player → Option (Board × Bool))
    (kingPos : Position) (player : Player) :
    List Position → Board → Option (Board × Bool)
  | [], bc => some (bc, false)
  | pos :: rest, bc =>
    match getSq bc pos.row pos.col with
    | none => none
    | some none => inCheckScan inCheck kingPos player rest bc
    | some (some piece) =>
      if piece.player = player then inCheckScan inCheck kingPos player rest bc
      else
        match ValidateMoveWith inCheck bc pos kingPos piece.player with
        | none => none
        | some (b1, Except.error _) => inCheckScan inCheck kingPos player rest b1
        | some (b1, Except.ok mv) =>
          match IsValidPieceMoveWith inCheck b1 (some piece) pos kingPos mv with
          | none => none
          | some (b2, ok, _) =>
            if ok then some (b2, true)
            else inCheckScan inCheck kingPos player rest b2

/-- `IsInCheck` from the source.  Fuel is consumed once per activation:
with fuel `n + 1`, every nested `IsInCheck` reached through castling
validation runs at fuel `n`; fuel `0` is `none`. -/
def IsInCheckF : Nat → Board → Player → Option (Board × Bool)
  | 0, _, _ => none
  | fuel + 1, b, player =>
    let kingPos := if player = Player.black then b.blackKing else b.whiteKing
    inCheckScan (IsInCheckF fuel) kingPos player scanPositions b

/-- `makeMove` from the source. -/
def makeMove (b : Board) (m : Move) : Option Board :=
  match m.piece with
  | none => none
  | some p =>
    let p1 : Piece := { p with hasMoved := true }
    let afterCastle : Option Board :=
      if m.isCastling then
        let kingSide := m.fromPos.col < m.toPos.col
        let rookFromCol : Int := if kingSide then 7 else 0
        let rookToCol : Int := if kingSide then 5 else 3
        match getSq b m.fromPos.row rookFromCol with
        | none => none
        | some rookOpt =>
          match setSq b m.fromPos.row rookToCol rookOpt with
          | none => none
          | some ba =>
            match setSq ba m.fromPos.row rookFromCol none with
            | none => none
            | some bb =>
              match rookOpt with
              | none => none
              | some rook => setSq bb m.fromPos.row rookToCol (some { rook with hasMoved := true })
      else some b
    match afterCastle with
    | none => none
    | some bc =>
      let afterEp : Option Board :=
        if m.isEnPassant then setSq bc m.fromPos.row m.toPos.col none else some bc
      match afterEp with
      | none => none
      | some bd =>
        match setSq bd m.toPos.row m.toPos.col (some p1) with
        | none => none
        | some be =>
          match setSq be m.fromPos.row m.fromPos.col none with
          | none => none
          | some bf =>
            let bg :=
              if p.kind = PieceType.king then
                if p.player = Player.white then { bf with whiteKing := m.toPos }
                else { bf with blackKing := m.toPos }
              else bf
            some { bg with lastMove := { m with piece := some p1 },
                           moveCount := bg.moveCount + 1 }

/-- `undoMove` from the source.  Note: it writes `move.Captured` to the
en-passant square, clears the mover's `HasMoved` flag unconditionally,
and does not restore `lastMove`. -/
def undoMove (b : Board) (m : Move) : Option Board :=
  match m.piece with
  | none => none
  | some p =>
    let p0 : Piece := { p with hasMoved := false }
    match setSq b m.fromPos.row m.fromPos.col (some p0) with
    | none => none
    | some b1 =>
      match setSq b1 m.toPos.row m.toPos.col m.captured with
      | none => none
      | some b2 =>
        let afterCastle : Option Board :=
          if m.isCastling then
            let kingSide := m.fromPos.col < m.toPos.col
            let rookFromCol : Int := if kingSide then 5 else 3
            let rookToCol : Int := if kingSide then 7 else 0
            match getSq b2 m.fromPos.row rookFromCol with
            | none => none
            | some rookOpt =>
              match setSq b2 m.fromPos.row rookToCol rookOpt with
              | none => none
              | some ba =>
                match setSq ba m.fromPos.row rookFromCol none with
                | none => none
                | some bb =>
                  match rookOpt with
                  | none => none
                  | some rook =>
                    setSq bb m.fromPos.row rookToCol (some { rook with hasMoved := false })
          else some b2
        match afterCastle with
        | none => none
        | some b3 =>
          let afterEp : Option Board :=
            if m.isEnPassant then setSq b3 m.fromPos.row m.toPos.col m.captured
            else some b3
          match afterEp with
          | none => none
          | some b4 =>
            let b5 :=
              if p.kind = PieceType.king then
                if p.player = Player.white then { b4 with whiteKing := m.fromPos }
                else { b4 with blackKing := m.fromPos }
              else b4
            some { b5 with moveCount := b5.moveCount - 1 }

namespace Board

/-- `Board.Move` from the source: validate, apply, test for self-check,
undo and reject if so. -/
def MoveF (fuel : Nat) (b : Board) (oldPos newPos : Position)
    (currentPlayer : Player) : Option (Board × Except ChessError Unit) :=
  match getSq b oldPos.row oldPos.col with
  | none => none
  | some none => some (b, Except.error ChessError.noPieceAtSource)
  | some (some piece) =>
    if piece.player ≠ currentPlayer then some (b, Except.error ChessError.wrongTurn)
    else
      match ValidateMoveWith (IsInCheckF fuel) b oldPos newPos currentPlayer with
      | none => none
      | some (b1, Except.error e) => some (b1, Except.error e)
      | some (b1, Except.ok mv) =>
        match makeMove b1 mv with
        | none => none
        | some b2 =>
          match IsInCheckF fuel b2 currentPlayer with
          | none => none
          | some (b3, true) =>
            match undoMove b3 mv with
            | none => none
            | some b4 => some (b4, Except.error ChessError.selfCheck)
          | some (b3, false) => some (b3, Except.ok ())

end Board

/-- The inner destination loop of `IsCheckmate`/`IsStalemate`: try every
destination for the piece found at `fromPos`; on each validated move,
apply it, test `IsInCheck`, undo it; report `true` as soon as a trial
leaves the player out of check. -/
def trialScan (fuel : Nat) (player : Player) (fromPos : Position) :
    List Position → Board → Option (Board × Bool)
  | [], bc => some (bc, false)
  | np :: rest, bc =>
    match ValidateMoveWith (IsInCheckF fuel) bc fromPos np player with
    | none => none
    | some (b1, Except.error _) => trialScan fuel player fromPos rest b1
    | some (b1, Except.ok mv) =>
      match makeMove b1 mv with
      | none => none
      | some b2 =>
        match IsInCheckF fuel b2 player with
        | none => none
        | some (b3, still) =>
          match undoMove b3 mv with
          | none => none
          | some b4 =>
            if still then trialScan fuel player fromPos rest b4
            else some (b4, true)

/-- The outer square loop of `IsCheckmate`/`IsStalemate`: for every cell
holding one of the player's pieces, run the destination loop; report
`true` (an escaping move exists) on the first hit, `false` after
exhausting all cells. -/
def escapeScan (fuel : Nat) (player : Player) :
    List Position → Board → Option (Board × Bool)
  | [], bc => some (bc, false)
  | pos :: rest, bc =>
    match getSq bc pos.row pos.col with
    | none => none
    | some none => escapeScan fuel player rest bc
    | some (some piece) =>
      if piece.player = player then
        match trialScan fuel player pos scanPositions bc with
        | none => none
        | some (b1, true) => some (b1, true)
        | some (b1, false) => escapeScan fuel player rest b1
      else escapeScan fuel player rest bc

/-- `IsCheckmate` from the source: `false` immediately when not in
check, otherwise `true` exactly when the exhaustive trial scan finds no
move that leaves the player out of check. -/
def IsCheckmateF (fuel : Nat) (b : Board) (player : Player) :
    Option (Board × Bool) :=
  match IsInCheckF fuel b player with
  | none => none
  | some (b0, false) => some (b0, false)
  | some (b0, true) =>
    match escapeScan fuel player scanPositions b0 with
    | none => none
    | some (b1, escaped) => some (b1, !escaped)

/-- `IsStalemate` from the source: `false` immediately when in check,
otherwise `true` exactly when no move leaves the player out of check. -/
def IsStalemateF (fuel : Nat) (b : Board) (player : Player) :
    Option (Board × Bool) :=
  match IsInCheckF fuel b player with
  | none => none
  | some (b0, true) => some (b0, false)
  | some (b0, false) =>
    match escapeScan fuel player scanPositions b0 with
    | none => none
    | some (b1, escaped) => some (b1, !escaped)

/-- `NewPiece` from the source (the display glyph is not modelled). -/
def NewPiece (pt : PieceType) (player : Player) : Piece :=
  { player := player, kind := pt, hasMoved := false }

/-- The zero value of the `Move` struct (the initial `lastMove`). -/
def zeroMove : Move := ⟨⟨0, 0⟩, ⟨0, 0⟩, none, none, false, false⟩

/-- `NewBoard` from the source: the standard initial arrangement with
the cached king positions. -/
def NewBoard : Board :=
  let bk := fun pt => some (NewPiece pt Player.black)
  let wk := fun pt => some (NewPiece pt Player.white)
  { squares :=
      [ [bk PieceType.rook, bk PieceType.knight, bk PieceType.bishop, bk PieceType.queen,
         bk PieceType.king, bk PieceType.bishop, bk PieceType.knight, bk PieceType.rook],
        [bk PieceType.pawn, bk PieceType.pawn, bk PieceType.pawn, bk PieceType.pawn,
         bk PieceType.pawn, bk PieceType.pawn, bk PieceType.pawn, bk PieceType.pawn],
        [none, none, none, none, none, none, none, none],
        [none, none, none, none, none, none, none, none],
        [none, none, none, none, none, none, none, none],
        [none, none, none, none, none, none, none, none],
        [wk PieceType.pawn, wk PieceType.pawn, wk PieceType.pawn, wk PieceType.pawn,
         wk PieceType.pawn, wk PieceType.pawn, wk PieceType.pawn, wk PieceType.pawn],
        [wk PieceType.rook, wk PieceType.knight, wk PieceType.bishop, wk PieceType.queen,
         wk PieceType.king, wk PieceType.bishop, wk PieceType.knight, wk PieceType.rook] ],
    lastMove := zeroMove,
    moveCount := 0,
    whiteKing := ⟨7, 4⟩,
    blackKing := ⟨0, 4⟩ }

deriving instance DecidableEq for Except

/-! ## Grid lemmas -/

theorem list_set_self {α : Type} {l : List α} {i : Nat} {a : α}
    (h : l[i]? = some a) : l.set i a = l := by
  apply List.ext_getElem?
  intro j
  rw [List.getElem?_set]
  by_cases hij : i = j
  · subst hij
    have hlen : i < l.length := by
      by_contra hge
      rw [List.getElem?_eq_none (by omega)] at h
      exact Option.noConfusion h
    simp [hlen, h]
  · simp [hij]

theorem getSq_bounds {b : Board} {r c : Int} {v : Option Piece}
    (h : getSq b r c = some v) : 0 ≤ r ∧ r < 8 ∧ 0 ≤ c ∧ c < 8 := by
  by_contra hn
  unfold getSq at h
  rw [if_neg hn] at h
  exact Option.noConfusion h

theorem setSq_fields {b b' : Board} {r c : Int} {v : Option Piece}
    (h : setSq b r c v = some b') :
    b'.lastMove = b.lastMove ∧ b'.moveCount = b.moveCount ∧
      b'.whiteKing = b.whiteKing ∧ b'.blackKing = b.blackKing := by
  unfold setSq at h
  split at h
  · split at h
    · cases h
      exact ⟨rfl, rfl, rfl, rfl⟩
    · exact Option.noConfusion h
  · exact Option.noConfusion h

theorem setSq_squares {b b' : Board} {r c : Int} {v : Option Piece}
    (h : setSq b r c v = some b') :
    ∃ row, b.squares[r.toNat]? = some row ∧
      b'.squares = b.squares.set r.toNat (row.set c.toNat v) := by
  unfold setSq at h
  split at h
  · split at h
    next row hrow =>
      cases h
      exact ⟨row, hrow, rfl⟩
    · exact Option.noConfusion h
  · exact Option.noConfusion h

theorem getSq_row {b : Board} {r c : Int} {v : Option Piece}
    (h : getSq b r c = some v) :
    ∃ row, b.squares[r.toNat]? = some row ∧ row[c.toNat]? = some v := by
  unfold getSq at h
  split at h
  · split at h
    next row hrow => exact ⟨row, hrow, h⟩
    · exact Option.noConfusion h
  · exact Option.noConfusion h

theorem board_eq_of_parts {b b' : Board}
    (hsq : b'.squares = b.squares) (hlm : b'.lastMove = b.lastMove)
    (hmc : b'.moveCount = b.moveCount) (hwk : b'.whiteKing = b.whiteKing)
    (hbk : b'.blackKing = b.blackKing) : b' = b := by
  cases b; cases b'
  simp only [Board.mk.injEq]
  exact ⟨hsq, hlm, hmc, hwk, hbk⟩

/-- Writing two cells of one row and then writing back their original
contents (in reverse order) restores the board exactly. -/
theorem setSq_pair_restore {b b1 b2 b3 b4 : Board} {r c1 c2 : Int}
    {v1 v2 w1 w2 : Option Piece}
    (hv1 : getSq b r c1 = some v1) (hv2 : getSq b r c2 = some v2)
    (hne : c1 ≠ c2)
    (h1 : setSq b r c1 w1 = some b1) (h2 : setSq b1 r c2 w2 = some b2)
    (h3 : setSq b2 r c2 v2 = some b3) (h4 : setSq b3 r c1 v1 = some b4) :
    b4 = b := by
  have hb := getSq_bounds hv1
  have hb2 := getSq_bounds hv2
  have hcne : c1.toNat ≠ c2.toNat := by omega
  obtain ⟨row, hrow, hcell1⟩ := getSq_row hv1
  obtain ⟨row', hrow', hcell2⟩ := getSq_row hv2
  rw [hrow] at hrow'
  cases hrow'
  have hrlen : r.toNat < b.squares.length := by
    by_contra hge
    rw [List.getElem?_eq_none (by omega)] at hrow
    exact Option.noConfusion hrow
  obtain ⟨ra, hra, hsa⟩ := setSq_squares h1
  rw [hrow] at hra; cases hra
  obtain ⟨rb, hrb, hsb⟩ := setSq_squares h2
  rw [hsa] at hrb
  rw [List.getElem?_set_self (by simpa using hrlen)] at hrb
  cases hrb
  obtain ⟨rc, hrc, hsc⟩ := setSq_squares h3
  rw [hsb, hsa, List.set_set, List.getElem?_set_self (by simpa using hrlen)] at hrc
  cases hrc
  obtain ⟨rd, hrd, hsd⟩ := setSq_squares h4
  rw [hsc, hsb, hsa, List.set_set, List.set_set,
    List.getElem?_set_self (by simpa using hrlen)] at hrd
  cases hrd
  have hrow3 : ((row.set c1.toNat w1).set c2.toNat w2).set c2.toNat v2 = row.set c1.toNat w1 := by
    rw [List.set_set]
    exact list_set_self (by rw [List.getElem?_set_ne (by omega)]; exact hcell2)
  have hrow4 : (((row.set c1.toNat w1).set c2.toNat w2).set c2.toNat v2).set c1.toNat v1 = row := by
    rw [hrow3, List.set_set]
    exact list_set_self hcell1
  have hsq : b4.squares = b.squares := by
    rw [hsd, hsc, hsb, hsa, List.set_set, List.set_set, List.set_set, hrow4]
    exact list_set_self hrow
  obtain ⟨l1, m1, w1', k1⟩ := setSq_fields h1
  obtain ⟨l2, m2, w2', k2⟩ := setSq_fields h2
  obtain ⟨l3, m3, w3', k3⟩ := setSq_fields h3
  obtain ⟨l4, m4, w4', k4⟩ := setSq_fields h4
  exact board_eq_of_parts hsq (by rw [l4, l3, l2, l1]) (by rw [m4, m3, m2, m1])
    (by rw [w4', w3', w2', w1']) (by rw [k4, k3, k2, k1])

/-! ## Arithmetic helpers -/

theorem intAbs_eq_iff {x k : Int} (hk : 0 ≤ k) : intAbs x = k ↔ x = k ∨ x = -k := by
  unfold intAbs; split <;> omega

theorem intSign_eq {x : Int} :
    intSign x = if x < 0 then -1 else if 0 < x then 1 else 0 := rfl

/-! ## The castling path loop -/

theorem castlePathClear_true_empty {b : Board} {row : Int} :
    ∀ (fuel : Nat) (s e : Int), castlePathClear b row fuel s e = some true →
      ∀ col, s ≤ col → col < e → getSq b row col = some none := by
  intro fuel
  induction fuel with
  | zero => intro s e h; exact Option.noConfusion h
  | succ n ih =>
    intro s e h col h1 h2
    unfold castlePathClear at h
    split at h
    · cases hs : getSq b row s with
      | none => rw [hs] at h; exact Option.noConfusion h
      | some v =>
        cases v with
        | some p => rw [hs] at h; cases h
        | none =>
          rw [hs] at h
          by_cases hcs : col = s
          · exact hcs ▸ hs
          · exact ih (s + 1) e h col (by omega) h2
    · omega

/-! ## Frame lemmas: every validation function returns the board it was
given (the provisional king displacement of castling validation is
exactly undone). -/

theorem intSign_of_pos {x : Int} (h : 0 < x) : intSign x = 1 := by
  rw [intSign_eq, if_neg (by omega), if_pos h]

theorem intSign_of_neg {x : Int} (h : x < 0) : intSign x = -1 := by
  rw [intSign_eq, if_pos h]


theorem castleProvisional_frame
    {O : Board → Player → Option (Board × Bool)}
    (hO : ∀ b p out, O b p = some out → out.1 = b)
    {b : Board} {piece : Piece} {oldPos : Position} {interCol : Int} {m : Move}
    {out : Board × Bool × Move}
    (hpiece : getSq b oldPos.row oldPos.col = some (some piece))
    (hinter : getSq b oldPos.row interCol = some none)
    (hne : interCol ≠ oldPos.col)
    (h : castleProvisional O b piece oldPos interCol m = some out) :
    out.1 = b := by
  unfold castleProvisional at h
  cases hchk : O b piece.player with
  | none => rw [hchk] at h; exact Option.noConfusion h
  | some out0 =>
    rw [hchk] at h
    obtain ⟨b0, chk0⟩ := out0
    have hb0 : b0 = b := hO _ _ _ hchk
    cases chk0 with
    | true => dsimp only at h; cases h; exact hb0
    | false =>
      dsimp only at h
      rw [hb0] at h
      cases hs1 : setSq b oldPos.row interCol (some piece) with
      | none => rw [hs1] at h; exact Option.noConfusion h
      | some b1 =>
        rw [hs1] at h; dsimp only at h
        cases hs2 : setSq b1 oldPos.row oldPos.col none with
        | none => rw [hs2] at h; exact Option.noConfusion h
        | some b2 =>
          rw [hs2] at h; dsimp only at h
          cases hchk2 : O b2 piece.player with
          | none => rw [hchk2] at h; exact Option.noConfusion h
          | some out2 =>
            rw [hchk2] at h
            obtain ⟨b3, chk2⟩ := out2
            have hb3 : b3 = b2 := hO _ _ _ hchk2
            dsimp only at h
            rw [hb3] at h
            cases hs3 : setSq b2 oldPos.row oldPos.col (some piece) with
            | none => rw [hs3] at h; exact Option.noConfusion h
            | some b4 =>
              rw [hs3] at h; dsimp only at h
              cases hs4 : setSq b4 oldPos.row interCol none with
              | none => rw [hs4] at h; exact Option.noConfusion h
              | some b5 =>
                rw [hs4] at h; dsimp only at h
                have hres : b5 = b :=
                  setSq_pair_restore hinter hpiece hne hs1 hs2 hs3 hs4
                cases chk2 with
                | true => rw [if_pos rfl] at h; cases h; exact hres
                | false =>
                  rw [if_neg Bool.false_ne_true] at h; cases h; exact hres

theorem validateCastlingWith_frame
    {O : Board → Player → Option (Board × Bool)}
    (hO : ∀ b p out, O b p = some out → out.1 = b)
    {b : Board} {piece : Piece} {oldPos newPos : Position} {m : Move}
    {out : Board × Bool × Move}
    (hpiece : getSq b oldPos.row oldPos.col = some (some piece))
    (hcap : ∃ capOpt, getSq b newPos.row newPos.col = some capOpt)
    (h : validateCastlingWith O b piece oldPos newPos m = some out) :
    out.1 = b := by
  obtain ⟨capOpt, hcap⟩ := hcap
  obtain ⟨hr1, hr2, hr3, hr4⟩ := getSq_bounds hpiece
  obtain ⟨hn1, hn2, hn3, hn4⟩ := getSq_bounds hcap
  by_cases hmv : piece.hasMoved = true
  · simp only [validateCastlingWith, hmv, if_true] at h
    cases h; rfl
  · simp only [validateCastlingWith, hmv, Bool.false_eq_true, if_false] at h
    by_cases hgeo : oldPos.row = newPos.row ∧ intAbs (newPos.col - oldPos.col) = 2
    · rw [if_neg (not_not.mpr hgeo)] at h
      obtain ⟨hrow, habs⟩ := hgeo
      have habs' : newPos.col - oldPos.col = 2 ∨ newPos.col - oldPos.col = -2 :=
        (intAbs_eq_iff (by omega)).mp habs
      rcases habs' with hd | hd
      · -- king side: rookCol = 7, transit square is oldPos.col + 1
        rw [if_pos (show oldPos.col < newPos.col by omega)] at h
        cases hrk : getSq b oldPos.row 7 with
        | none => rw [hrk] at h; exact Option.noConfusion h
        | some rookOpt =>
          rw [hrk] at h
          cases rookOpt with
          | none => dsimp only at h; cases h; rfl
          | some rook =>
            dsimp only at h
            by_cases hknd : rook.kind ≠ PieceType.rook ∨ rook.hasMoved = true
            · rw [if_pos hknd] at h; cases h; rfl
            · rw [if_neg hknd] at h
              cases hpath : castlePathClear b oldPos.row 16 (min oldPos.col 7 + 1)
                  (max oldPos.col 7) with
              | none => rw [hpath] at h; exact Option.noConfusion h
              | some pcv =>
                rw [hpath] at h
                cases pcv with
                | false => dsimp only at h; cases h; rfl
                | true =>
                  dsimp only at h
                  have hsgn : intSign (newPos.col - oldPos.col) = 1 :=
                    intSign_of_pos (by omega)
                  rw [hsgn] at h
                  have hinter : getSq b oldPos.row (oldPos.col + 1) = some none :=
                    castlePathClear_true_empty 16 _ _ hpath (oldPos.col + 1)
                      (by omega) (by omega)
                  exact castleProvisional_frame hO hpiece hinter (by omega) h
      · -- queen side: rookCol = 0, transit square is oldPos.col - 1
        rw [if_neg (show ¬(oldPos.col < newPos.col) by omega)] at h
        cases hrk : getSq b oldPos.row 0 with
        | none => rw [hrk] at h; exact Option.noConfusion h
        | some rookOpt =>
          rw [hrk] at h
          cases rookOpt with
          | none => dsimp only at h; cases h; rfl
          | some rook =>
            dsimp only at h
            by_cases hknd : rook.kind ≠ PieceType.rook ∨ rook.hasMoved = true
            · rw [if_pos hknd] at h; cases h; rfl
            · rw [if_neg hknd] at h
              cases hpath : castlePathClear b oldPos.row 16 (min oldPos.col 0 + 1)
                  (max oldPos.col 0) with
              | none => rw [hpath] at h; exact Option.noConfusion h
              | some pcv =>
                rw [hpath] at h
                cases pcv with
                | false => dsimp only at h; cases h; rfl
                | true =>
                  dsimp only at h
                  have hsgn : intSign (newPos.col - oldPos.col) = -1 :=
                    intSign_of_neg (by omega)
                  rw [hsgn] at h
                  have hinter : getSq b oldPos.row (oldPos.col + -1) = some none :=
                    castlePathClear_true_empty 16 _ _ hpath (oldPos.col + -1)
                      (by omega) (by omega)
                  exact castleProvisional_frame hO hpiece hinter (by omega) h
    · rw [if_pos hgeo] at h
      cases h; rfl

theorem IsValidPieceMoveWith_frame
    {O : Board → Player → Option (Board × Bool)}
    (hO : ∀ b p out, O b p = some out → out.1 = b)
    {b : Board} {pieceOpt : Option Piece} {oldPos newPos : Position} {m : Move}
    {out : Board × Bool × Move}
    (hsrc : getSq b oldPos.row oldPos.col = some pieceOpt)
    (hcap : ∃ capOpt, getSq b newPos.row newPos.col = some capOpt)
    (h : IsValidPieceMoveWith O b pieceOpt oldPos newPos m = some out) :
    out.1 = b := by
  cases pieceOpt with
  | none => exact Option.noConfusion h
  | some piece =>
    unfold IsValidPieceMoveWith at h
    dsimp only at h
    cases hk : piece.kind with
    | pawn =>
      rw [hk] at h; dsimp only at h
      cases hp : validatePawnMove b piece oldPos newPos
          (newPos.row - oldPos.row) (newPos.col - oldPos.col) m with
      | none => rw [hp] at h; exact Option.noConfusion h
      | some r => rw [hp] at h; dsimp only at h; cases h; rfl
    | rook =>
      rw [hk] at h; dsimp only at h
      split at h
      · cases hpc : isPathClear b oldPos newPos with
        | none => rw [hpc] at h; exact Option.noConfusion h
        | some v => rw [hpc] at h; dsimp only at h; cases h; rfl
      · cases h; rfl
    | knight => rw [hk] at h; dsimp only at h; cases h; rfl
    | bishop =>
      rw [hk] at h; dsimp only at h
      split at h
      · cases hpc : isPathClear b oldPos newPos with
        | none => rw [hpc] at h; exact Option.noConfusion h
        | some v => rw [hpc] at h; dsimp only at h; cases h; rfl
      · cases h; rfl
    | queen =>
      rw [hk] at h; dsimp only at h
      split at h
      · cases hpc : isPathClear b oldPos newPos with
        | none => rw [hpc] at h; exact Option.noConfusion h
        | some v => rw [hpc] at h; dsimp only at h; cases h; rfl
      · cases h; rfl
    | king =>
      rw [hk] at h; dsimp only at h
      split at h
      · cases h; rfl
      · exact validateCastlingWith_frame hO hsrc hcap h

theorem ValidateMoveWith_getSq
    {O : Board → Player → Option (Board × Bool)}
    {b : Board} {oldPos newPos : Position} {player : Player}
    {out : Board × Except ChessError Move}
    (h : ValidateMoveWith O b oldPos newPos player = some out) :
    (∃ x, getSq b oldPos.row oldPos.col = some x) ∧
      ∃ y, getSq b newPos.row newPos.col = some y := by
  unfold ValidateMoveWith at h
  cases ho : getSq b oldPos.row oldPos.col with
  | none => rw [ho] at h; exact Option.noConfusion h
  | some x =>
    rw [ho] at h
    cases hn : getSq b newPos.row newPos.col with
    | none => rw [hn] at h; exact Option.noConfusion h
    | some y => exact ⟨⟨x, rfl⟩, ⟨y, rfl⟩⟩

theorem ValidateMoveWith_frame
    {O : Board → Player → Option (Board × Bool)}
    (hO : ∀ b p out, O b p = some out → out.1 = b)
    {b : Board} {oldPos newPos : Position} {player : Player}
    {out : Board × Except ChessError Move}
    (h : ValidateMoveWith O b oldPos newPos player = some out) :
    out.1 = b := by
  unfold ValidateMoveWith at h
  cases ho : getSq b oldPos.row oldPos.col with
  | none => rw [ho] at h; exact Option.noConfusion h
  | some pieceOpt =>
    rw [ho] at h; dsimp only at h
    cases hn : getSq b newPos.row newPos.col with
    | none => rw [hn] at h; exact Option.noConfusion h
    | some capturedOpt =>
      rw [hn] at h; dsimp only at h
      split at h
      · cases h; rfl
      · have hafter : ∀ (hout : Board × Bool × Move),
            IsValidPieceMoveWith O b pieceOpt oldPos newPos
              ⟨oldPos, newPos, pieceOpt, capturedOpt, false, false⟩ = some hout →
            hout.1 = b := by
          intro hout hh
          exact IsValidPieceMoveWith_frame hO ho ⟨capturedOpt, hn⟩ hh
        cases capturedOpt with
        | some cap =>
          dsimp only at h
          split at h
          · cases h; rfl
          · cases hv : IsValidPieceMoveWith O b pieceOpt oldPos newPos
                ⟨oldPos, newPos, pieceOpt, some cap, false, false⟩ with
            | none => rw [hv] at h; exact Option.noConfusion h
            | some vout =>
              rw [hv] at h
              obtain ⟨b', ok, m'⟩ := vout
              have hb' : b' = b := hafter _ hv
              dsimp only at h
              split at h <;> (cases h; exact hb')
        | none =>
          dsimp only at h
          cases hv : IsValidPieceMoveWith O b pieceOpt oldPos newPos
              ⟨oldPos, newPos, pieceOpt, none, false, false⟩ with
          | none => rw [hv] at h; exact Option.noConfusion h
          | some vout =>
            rw [hv] at h
            obtain ⟨b', ok, m'⟩ := vout
            have hb' : b' = b := hafter _ hv
            dsimp only at h
            split at h <;> (cases h; exact hb')

theorem inCheckScan_frame
    {O : Board → Player → Option (Board × Bool)}
    (hO : ∀ b p out, O b p = some out → out.1 = b)
    {kingPos : Position} {player : Player} :
    ∀ (l : List Position) (bc : Board) (out : Board × Bool),
      inCheckScan O kingPos player l bc = some out → out.1 = bc := by
  intro l
  induction l with
  | nil => intro bc out h; cases h; rfl
  | cons pos rest ih =>
    intro bc out h
    unfold inCheckScan at h
    cases hg : getSq bc pos.row pos.col with
    | none => rw [hg] at h; exact Option.noConfusion h
    | some cell =>
      rw [hg] at h
      cases cell with
      | none => exact ih bc out h
      | some piece =>
        dsimp only at h
        split at h
        · exact ih bc out h
        · cases hv : ValidateMoveWith O bc pos kingPos piece.player with
          | none => rw [hv] at h; exact Option.noConfusion h
          | some vout =>
            rw [hv] at h
            obtain ⟨b1, res⟩ := vout
            have hb1 : b1 = bc := ValidateMoveWith_frame hO hv
            cases res with
            | error e =>
              dsimp only at h
              rw [hb1] at h
              exact ih bc out h
            | ok mv =>
              dsimp only at h
              cases hv2 : IsValidPieceMoveWith O b1 (some piece) pos kingPos mv with
              | none => rw [hv2] at h; exact Option.noConfusion h
              | some v2 =>
                rw [hv2] at h
                obtain ⟨b2, ok2, m2⟩ := v2
                have hgb : getSq b1 pos.row pos.col = some (some piece) := hb1 ▸ hg
                obtain ⟨_, hy⟩ := ValidateMoveWith_getSq (hb1 ▸ hv)
                have hb2 : b2 = b1 :=
                  IsValidPieceMoveWith_frame hO hgb (hb1 ▸ hy) hv2
                dsimp only at h
                split at h
                · cases h; rw [hb2, hb1]
                · have := ih b2 out h
                  rw [this, hb2, hb1]

theorem IsInCheckF_frame :
    ∀ (fuel : Nat) (b : Board) (player : Player) (out : Board × Bool),
      IsInCheckF fuel b player = some out → out.1 = b := by
  intro fuel
  induction fuel with
  | zero => intro b p out h; exact Option.noConfusion h
  | succ n ih =>
    intro b p out h
    unfold IsInCheckF at h
    exact inCheckScan_frame (fun b' p' out' h' => ih b' p' out' h') scanPositions b out h

/-! ## Concrete boards used in the claim instances -/

def emptyRow8 : List (Option Piece) := [none, none, none, none, none, none, none, none]

def placePiece (g : List (List (Option Piece))) (r c : Nat) (p : Piece) :
    List (List (Option Piece)) :=
  match g[r]? with
  | some row => g.set r (row.set c (some p))
  | none => g

def mkBoard (ps : List (Nat × Nat × Piece)) (lm : Move) (wk bk : Position) : Board :=
  { squares := ps.foldl (fun g x => placePiece g x.1 x.2.1 x.2.2) (List.replicate 8 emptyRow8),
    lastMove := lm, moveCount := 0, whiteKing := wk, blackKing := bk }

def wPc (k : PieceType) (h : Bool) : Piece := ⟨Player.white, k, h⟩
def bPc (k : PieceType) (h : Bool) : Piece := ⟨Player.black, k, h⟩

/-! ## C10 -/

/-- C10: for every proposed `(from, to, player)` with a piece at the
source, `ValidateMove` leaves the entire board unchanged — every grid
cell, both cached king positions, the recorded last move, the move
counter, and every piece's has-moved flag — even on the castling path,
where the king is temporarily placed on its transit square and restored
before `ValidateMove` returns. -/
theorem c10_validate_frame (fuel : Nat) (b : Board) (oldPos newPos : Position)
    (player : Player) (pc : Piece)
    (hsrc : getSq b oldPos.row oldPos.col = some (some pc))
    (out : Board × Except ChessError Move)
    (h : ValidateMoveWith (IsInCheckF fuel) b oldPos newPos player = some out) :
    out.1 = b :=
  ValidateMoveWith_frame (fun b' p' out' h' => IsInCheckF_frame fuel b' p' out' h') h

/-- Witness for C10 at a concrete input: the initial board and the move
e2–e4. -/
theorem c10_validate_frame_witness :
    getSq NewBoard 6 4 = some (some (wPc PieceType.pawn false)) ∧
    (ValidateMoveWith (IsInCheckF 1) NewBoard ⟨6, 4⟩ ⟨4, 4⟩ Player.white).map Prod.fst
      = some NewBoard := by
  refine ⟨by decide, ?_⟩
  have h : ValidateMoveWith (IsInCheckF 1) NewBoard ⟨6, 4⟩ ⟨4, 4⟩ Player.white
      = some (NewBoard, Except.ok ⟨⟨6, 4⟩, ⟨4, 4⟩, some (wPc PieceType.pawn false),
          none, false, false⟩) := by decide
  rw [h]
  exact congrArg some
    (c10_validate_frame 1 NewBoard ⟨6, 4⟩ ⟨4, 4⟩ Player.white (wPc PieceType.pawn false)
      (by decide) _ h)

/-! ## C1 -/

/-- The board for C1: a white pawn on (3,4) that has already moved, a
black pawn on (3,3) that has just made the double step (1,3)→(3,3)
recorded in `lastMove`, and both kings on their cached squares. -/
def bC1 : Board := mkBoard
  [ (3, 4, wPc PieceType.pawn true), (3, 3, bPc PieceType.pawn true),
    (7, 4, wPc PieceType.king true), (0, 4, bPc PieceType.king true) ]
  ⟨⟨1, 3⟩, ⟨3, 3⟩, some (bPc PieceType.pawn true), none, false, false⟩
  ⟨7, 4⟩ ⟨0, 4⟩

def mvC1 : Move := ⟨⟨3, 4⟩, ⟨2, 3⟩, some (wPc PieceType.pawn true), none, true, false⟩

/-- C1: the legal en-passant capture (3,4)→(2,3) on `bC1` (not the
pawn's first move) validates, but `undoMove (makeMove …)` does NOT
restore the grid: the captured black pawn's square (3,3) is left empty,
because `undoMove` writes `move.Captured` (nil for en passant) there.
King caches and move counter are restored; the grid is not. -/
theorem c1_enPassant_undo_loses_pawn :
    ValidateMoveWith (IsInCheckF 1) bC1 ⟨3, 4⟩ ⟨2, 3⟩ Player.white
      = some (bC1, Except.ok mvC1) ∧
    getSq bC1 3 3 = some (some (bPc PieceType.pawn true)) ∧
    ((makeMove bC1 mvC1).bind (fun b2 => undoMove b2 mvC1)).map
        (fun b3 => (getSq b3 3 3, b3.whiteKing, b3.blackKing, b3.moveCount))
      = some (some none, bC1.whiteKing, bC1.blackKing, bC1.moveCount) := by
  decide

/-! ## C2 -/

/-- The board for C2: white king e1 and rook h1, both unmoved, castling
path clear; a black rook on f8 attacks the king's transit square f1; the
black king sits on a8.  White is not currently in check. -/
def bC2 : Board := mkBoard
  [ (7, 4, wPc PieceType.king false), (7, 7, wPc PieceType.rook false),
    (0, 5, bPc PieceType.rook true), (0, 0, bPc PieceType.king true) ]
  zeroMove ⟨7, 4⟩ ⟨0, 0⟩

/-- `bC2` with the white king provisionally standing on the transit
square f1 = (7,5) — the exact grid `validateCastling` builds before it
runs the check detector. -/
def bC2T : Board := mkBoard
  [ (7, 5, wPc PieceType.king false), (7, 7, wPc PieceType.rook false),
    (0, 5, bPc PieceType.rook true), (0, 0, bPc PieceType.king true) ]
  zeroMove ⟨7, 4⟩ ⟨0, 0⟩

/-- C2: on `bC2`, the black rook's move onto the transit square f1
validates on the displaced board (the square IS attacked), yet kingside
castling e1→g1 is ACCEPTED: the nested check run consults the cached
king square e1, not the transit square the king was provisionally placed
on. -/
theorem c2_castling_transit_check_uses_stale_cache :
    (ValidateMoveWith (IsInCheckF 2) bC2 ⟨7, 4⟩ ⟨7, 6⟩ Player.white).map
        (fun x => (x.1, (match x.2 with
          | Except.ok mv => some mv.isCastling
          | Except.error _ => none)))
      = some (bC2, some true) ∧
    (ValidateMoveWith (IsInCheckF 1) bC2T ⟨0, 5⟩ ⟨7, 5⟩ Player.black).map
        (fun x => match x.2 with
          | Except.ok _ => true
          | Except.error _ => false)
      = some true := by
  decide

/-! ## C3 -/

/-- The board for C3: a white rook on e2 shields the white king e1 from
the black rook e8; the black king is on a8; the recorded last move is
the zero value. -/
def bC3 : Board := mkBoard
  [ (6, 4, wPc PieceType.rook true), (7, 4, wPc PieceType.king true),
    (0, 4, bPc PieceType.rook true), (0, 0, bPc PieceType.king true) ]
  zeroMove ⟨7, 4⟩ ⟨0, 0⟩

/-- C3: moving the shielding rook e2→a2 is rejected with `SelfCheck`
(applied, tested, rolled back), but the board is NOT left unchanged: the
recorded last move now names the rejected move, and the rook's has-moved
flag has been reset to `false` by the rollback. -/
theorem c3_selfcheck_rejection_mutates_lastMove :
    (Board.MoveF 3 bC3 ⟨6, 4⟩ ⟨6, 0⟩ Player.white).map
        (fun x => (match x.2 with
          | Except.error e => some e
          | Except.ok _ => none, x.1.lastMove.toPos, getSq x.1 6 4))
      = some (some ChessError.selfCheck, ⟨6, 0⟩,
          some (some (wPc PieceType.rook false))) ∧
    bC3.lastMove.toPos = ⟨0, 0⟩ ∧
    getSq bC3 6 4 = some (some (wPc PieceType.rook true)) := by
  decide

/-! ## C7 -/

/-- C7: with a piece on the in-bounds source e2 and the destination
(8,4) outside the grid, `ValidateMove` does not return the out-of-bounds
rejection: it reads `squares[8][4]` while building the `Move` record,
before the bounds test, and panics (modelled as `none`).  The dedicated
bounds check would have flagged the destination. -/
theorem c7_out_of_bounds_panics :
    ValidateMoveWith (IsInCheckF 1) NewBoard ⟨6, 4⟩ ⟨8, 4⟩ Player.white = none ∧
    getSq NewBoard 6 4 = some (some (wPc PieceType.pawn false)) ∧
    isValidPosition ⟨8, 4⟩ = false := by
  decide

/-! ## C8 -/

/-- The board for C8: Black (to move) is in check — the black king h3 =
(5,7) is attacked along row 5 by a white rook on (5,0); white rooks on
rows 4 and 6 cover every king escape; the black pawn on (3,4) has
already moved, so its double step is NOT legal.  Its single step (4,4)
does not block the check; the square (5,4) would. -/
def bC8 : Board := mkBoard
  [ (3, 4, bPc PieceType.pawn true), (5, 7, bPc PieceType.king true),
    (4, 0, wPc PieceType.rook true), (5, 0, wPc PieceType.rook true),
    (6, 0, wPc PieceType.rook true) ]
  zeroMove ⟨0, 0⟩ ⟨5, 7⟩

/-- Does the pair `(fp, tp)` escape check for `player` on board `b`
itself: a piece of `player` stands on `fp`, the move validates, and
after applying it the player is out of check.  This is the claim's
existential, evaluated against the input board. -/
def escapesPair (fuel : Nat) (b : Board) (player : Player) (fp tp : Position) : Bool :=
  match getSq b fp.row fp.col with
  | some (some pc) =>
    if pc.player = player then
      match ValidateMoveWith (IsInCheckF fuel) b fp tp player with
      | some (b1, Except.ok mv) =>
        match makeMove b1 mv with
        | some b2 =>
          match IsInCheckF fuel b2 player with
          | some (_, false) => true
          | _ => false
        | none => false
      | _ => false
    else false
  | _ => false

/-- C8: on `bC8`, Black is in check and NO `(from, to)` pair of Black's
pieces validates and leaves Black out of check on this board — yet
`IsCheckmate(Black)` returns `false`.  The scan first trials the pawn's
single step (4,4); its undo resets the pawn's has-moved flag, after
which the later pair (3,4)→(5,4) validates as a double step on the
mutated board and blocks the check — a phantom escape that does not
exist on the input position. -/
theorem c8_checkmate_phantom_escape :
    (IsInCheckF 3 bC8 Player.black).map (fun x => x.2) = some true ∧
    (IsCheckmateF 3 bC8 Player.black).map (fun x => x.2) = some false ∧
    scanPositions.all
        (fun fp => scanPositions.all (fun tp => !escapesPair 3 bC8 Player.black fp tp))
      = true := by
  decide

/-! ## C6 -/

/-- A legal game from the initial board: White walks the king to g4,
posts the bishop on d3, and pushes the e-pawn to e5; Black walks the
king to g6 and finally answers with the double step f7–f5, which blocks
the d3-bishop's diagonal and gives check to the white king on g4. -/
def gameC6 : List (Position × Position × Player) :=
  [ (⟨6, 4⟩, ⟨4, 4⟩, Player.white), (⟨1, 4⟩, ⟨2, 4⟩, Player.black),
    (⟨7, 4⟩, ⟨6, 4⟩, Player.white), (⟨0, 4⟩, ⟨1, 4⟩, Player.black),
    (⟨6, 4⟩, ⟨5, 5⟩, Player.white), (⟨1, 4⟩, ⟨2, 5⟩, Player.black),
    (⟨5, 5⟩, ⟨4, 6⟩, Player.white), (⟨2, 5⟩, ⟨2, 6⟩, Player.black),
    (⟨7, 5⟩, ⟨5, 3⟩, Player.white), (⟨1, 0⟩, ⟨2, 0⟩, Player.black),
    (⟨4, 4⟩, ⟨3, 4⟩, Player.white), (⟨1, 5⟩, ⟨3, 5⟩, Player.black) ]

/-- Run a list of `Board.Move` calls, requiring each to succeed. -/
def runMoves (fuel : Nat) : List (Position × Position × Player) → Board → Option Board
  | [], b => some b
  | (op, np, pl) :: rest, b =>
    match Board.MoveF fuel b op np pl with
    | some (b', Except.ok _) => runMoves fuel rest b'
    | _ => none

/-- The number of kings of side `pl` present on the grid. -/
def countKings (b : Board) (pl : Player) : Nat :=
  (scanPositions.filter (fun p => match getSq b p.row p.col with
    | some (some pc) => pc.kind == PieceType.king && pc.player == pl
    | _ => false)).length

/-- The state reached by: the 12 legal moves of `gameC6`, then the
`IsCheckmate(White)` query the game loop performs (required to answer
`false`), then White's move Bd3×g6 — which `Board.Move` accepts. -/
def c6FinalState : Option Board :=
  (runMoves 3 gameC6 NewBoard).bind (fun b =>
    (IsCheckmateF 3 b Player.white).bind (fun x =>
      if x.2 then none else
      (Board.MoveF 3 x.1 ⟨5, 3⟩ ⟨2, 6⟩ Player.white).bind (fun y =>
        match y.2 with
        | Except.ok _ => some y.1
        | Except.error _ => none)))

/-- C6: a state reachable from the initial board by successful `Move`
calls and one checkmate query violates the king invariant: the final
accepted move captures the black king (no black king remains on the
grid, and the black king cache points at a square holding the white
bishop).  The `IsCheckmate` query's en-passant trial had silently
deleted Black's f5 pawn — its undo writes back the nil `Captured`
field — exposing the black king to the bishop. -/
theorem c6_king_invariant_violated_reachable :
    c6FinalState.map (fun bf => (countKings bf Player.black, bf.blackKing, getSq bf 2 6))
      = some (0, ⟨2, 6⟩, some (some (wPc PieceType.bishop true))) ∧
    (runMoves 3 gameC6 NewBoard).bind (fun b =>
        (IsCheckmateF 3 b Player.white).map (fun x => (x.2, getSq b 3 5, getSq x.1 3 5)))
      = some (false, some (some (bPc PieceType.pawn true)), some none) := by
  decide

/-! ## C4: one activation of the check detector suffices when the cached
king square actually holds a king -/

/-- The grid is a genuine 8×8 array (always true of boards built by the
program; Go's `[8][8]*Piece` has it by construction). -/
def BoardWF (b : Board) : Prop :=
  b.squares.length = 8 ∧ ∀ row ∈ b.squares, row.length = 8

/-- The king-square selection of `IsInCheck`. -/
def kingSquare (b : Board) (player : Player) : Position :=
  if player = Player.black then b.blackKing else b.whiteKing

theorem getSq_isSome_of_WF {b : Board} (hWF : BoardWF b) {r c : Int}
    (h1 : 0 ≤ r) (h2 : r < 8) (h3 : 0 ≤ c) (h4 : c < 8) :
    ∃ v, getSq b r c = some v := by
  obtain ⟨hlen, hrows⟩ := hWF
  have hr : r.toNat < b.squares.length := by omega
  obtain ⟨row, hrow⟩ : ∃ row, b.squares[r.toNat]? = some row :=
    ⟨b.squares[r.toNat], List.getElem?_eq_getElem hr⟩
  have hrl : row.length = 8 := hrows row (List.getElem?_mem hrow)
  have hc : c.toNat < row.length := by omega
  refine ⟨row[c.toNat], ?_⟩
  unfold getSq
  rw [if_pos ⟨h1, h2, h3, h4⟩, hrow]
  exact List.getElem?_eq_getElem hc

theorem intSign_eq_one_iff {x : Int} : intSign x = 1 ↔ 0 < x := by
  rw [intSign_eq]; split
  · omega
  · split <;> omega

theorem intSign_eq_neg_one_iff {x : Int} : intSign x = -1 ↔ x < 0 := by
  rw [intSign_eq]; split
  · omega
  · split <;> omega

theorem intSign_eq_zero_iff {x : Int} : intSign x = 0 ↔ x = 0 := by
  rw [intSign_eq]; split
  · omega
  · split <;> omega

theorem intSign_cases (x : Int) : intSign x = -1 ∨ intSign x = 0 ∨ intSign x = 1 := by
  rw [intSign_eq]; split
  · exact Or.inl rfl
  · split
    · exact Or.inr (Or.inr rfl)
    · exact Or.inr (Or.inl rfl)

theorem pathClearGo_isSome {b : Board} (hWF : BoardWF b) {t : Position}
    (ht1 : 0 ≤ t.row) (ht2 : t.row < 8) (ht3 : 0 ≤ t.col) (ht4 : t.col < 8)
    {dr dc : Int} (hdr : dr = -1 ∨ dr = 0 ∨ dr = 1) (hdc : dc = -1 ∨ dc = 0 ∨ dc = 1) :
    ∀ (n fuel : Nat) (r c : Int), n < fuel →
      t.row - r = n * dr → t.col - c = n * dc →
      0 ≤ r → r < 8 → 0 ≤ c → c < 8 →
      (pathClearGo b dr dc t fuel r c).isSome := by
  intro n
  induction n with
  | zero =>
    intro fuel r c hfuel hrow hcol _ _ _ _
    cases fuel with
    | zero => omega
    | succ f =>
      unfold pathClearGo
      rw [if_pos ⟨by omega, by omega⟩]
      exact Option.isSome_some
  | succ n ih =>
    intro fuel r c hfuel hrow hcol hb1 hb2 hb3 hb4
    cases fuel with
    | zero => omega
    | succ f =>
      unfold pathClearGo
      by_cases hEnd : r = t.row ∧ c = t.col
      · rw [if_pos hEnd]; exact Option.isSome_some
      · rw [if_neg hEnd]
        obtain ⟨v, hv⟩ := getSq_isSome_of_WF hWF hb1 hb2 hb3 hb4
        rw [hv]
        cases v with
        | some p => exact Option.isSome_some
        | none =>
          have key : t.row - (r + dr) = n * dr ∧ t.col - (c + dc) = n * dc ∧
              0 ≤ r + dr ∧ r + dr < 8 ∧ 0 ≤ c + dc ∧ c + dc < 8 := by
            rcases hdr with h | h | h <;> rcases hdc with h' | h' | h' <;>
              (subst h; subst h'; push_cast at hrow hcol ⊢; omega)
          exact ih f (r + dr) (c + dc) (by omega) key.1 key.2.1 key.2.2.1
            key.2.2.2.1 key.2.2.2.2.1 key.2.2.2.2.2

theorem isPathClear_isSome {b : Board} (hWF : BoardWF b) {oldPos newPos : Position}
    (ho1 : 0 ≤ oldPos.row) (ho2 : oldPos.row < 8) (ho3 : 0 ≤ oldPos.col) (ho4 : oldPos.col < 8)
    (hn1 : 0 ≤ newPos.row) (hn2 : newPos.row < 8) (hn3 : 0 ≤ newPos.col) (hn4 : newPos.col < 8)
    (halign : newPos.row - oldPos.row = 0 ∨ newPos.col - oldPos.col = 0 ∨
      intAbs (newPos.row - oldPos.row) = intAbs (newPos.col - oldPos.col)) :
    (isPathClear b oldPos newPos).isSome := by
  unfold isPathClear
  set R := newPos.row - oldPos.row with hR
  set C := newPos.col - oldPos.col with hC
  have habsR : intAbs R = R.natAbs := by unfold intAbs; split <;> omega
  have habsC : intAbs C = C.natAbs := by unfold intAbs; split <;> omega
  rw [habsR, habsC] at halign
  refine pathClearGo_isSome hWF hn1 hn2 hn3 hn4 (intSign_cases R) (intSign_cases C)
    (max R.natAbs C.natAbs - 1) 16 (oldPos.row + intSign R) (oldPos.col + intSign C)
    (by omega) ?_ ?_ ?_ ?_ ?_ ?_
  · rcases intSign_cases R with h | h | h <;> rw [h] <;> push_cast <;>
      [have := intSign_eq_neg_one_iff.mp h;
       have := intSign_eq_zero_iff.mp h;
       have := intSign_eq_one_iff.mp h] <;>
      rcases halign with h0 | h0 | h0 <;> omega
  · rcases intSign_cases C with h | h | h <;> rw [h] <;> push_cast <;>
      [have := intSign_eq_neg_one_iff.mp h;
       have := intSign_eq_zero_iff.mp h;
       have := intSign_eq_one_iff.mp h] <;>
      rcases halign with h0 | h0 | h0 <;> omega
  · rcases intSign_cases R with h | h | h <;> rw [h] <;>
      [have := intSign_eq_neg_one_iff.mp h;
       have := intSign_eq_zero_iff.mp h;
       have := intSign_eq_one_iff.mp h] <;> omega
  · rcases intSign_cases R with h | h | h <;> rw [h] <;>
      [have := intSign_eq_neg_one_iff.mp h;
       have := intSign_eq_zero_iff.mp h;
       have := intSign_eq_one_iff.mp h] <;> omega
  · rcases intSign_cases C with h | h | h <;> rw [h] <;>
      [have := intSign_eq_neg_one_iff.mp h;
       have := intSign_eq_zero_iff.mp h;
       have := intSign_eq_one_iff.mp h] <;> omega
  · rcases intSign_cases C with h | h | h <;> rw [h] <;>
      [have := intSign_eq_neg_one_iff.mp h;
       have := intSign_eq_zero_iff.mp h;
       have := intSign_eq_one_iff.mp h] <;> omega

theorem validatePawnMove_isSome {b : Board} (hWF : BoardWF b)
    {piece : Piece} {oldPos newPos : Position} {m : Move}
    (ho1 : 0 ≤ oldPos.row) (ho2 : oldPos.row < 8) (ho3 : 0 ≤ oldPos.col) (ho4 : oldPos.col < 8)
    (hn1 : 0 ≤ newPos.row) (hn2 : newPos.row < 8) (hn3 : 0 ≤ newPos.col) (hn4 : newPos.col < 8) :
    (validatePawnMove b piece oldPos newPos
      (newPos.row - oldPos.row) (newPos.col - oldPos.col) m).isSome := by
  obtain ⟨vn, hvn⟩ := getSq_isSome_of_WF hWF hn1 hn2 hn3 hn4
  unfold validatePawnMove
  dsimp only
  generalize hfwd : (if piece.player = Player.black then (1 : Int) else -1) = fwd
  have hf1 : fwd = 1 ∨ fwd = -1 := by
    rw [← hfwd]; split
    · exact Or.inl rfl
    · exact Or.inr rfl
  rw [hvn]
  cases vn with
  | some p =>
    dsimp only
    repeat' split
    all_goals exact Option.isSome_some
  | none =>
    dsimp only
    split
    · exact Option.isSome_some
    · split
      · next hcond =>
        have hmidb : 0 ≤ oldPos.row + fwd ∧ oldPos.row + fwd < 8 := by
          rcases hf1 with h | h <;> (subst h; omega)
        obtain ⟨vm, hvm⟩ := getSq_isSome_of_WF hWF hmidb.1 hmidb.2 ho3 ho4
        rw [hvm]
        cases vm with
        | none => exact Option.isSome_some
        | some p =>
          dsimp only
          split
          · split <;> exact Option.isSome_some
          · exact Option.isSome_some
      · split
        · split <;> exact Option.isSome_some
        · exact Option.isSome_some

theorem castlePathClear_blocked {b : Board} {row : Int} :
    ∀ (fuel : Nat) (s e : Int), (e - s).toNat < fuel →
      (∀ col, s ≤ col → col < e → (getSq b row col).isSome) →
      (∃ col, s ≤ col ∧ col < e ∧ getSq b row col ≠ some none) →
      castlePathClear b row fuel s e = some false := by
  intro fuel
  induction fuel with
  | zero => intro s e hf _ hex; omega
  | succ n ih =>
    intro s e hf hsome hex
    obtain ⟨col, hc1, hc2, hc3⟩ := hex
    unfold castlePathClear
    rw [if_pos (by omega)]
    have hs := hsome s (le_refl s) (by omega)
    cases hv : getSq b row s with
    | none => rw [hv] at hs; exact absurd hs (by simp)
    | some v =>
      cases v with
      | some p => rfl
      | none =>
        have hcs : col ≠ s := by
          intro hq; rw [hq] at hc3; exact hc3 hv
        show castlePathClear b row n (s + 1) e = some false
        exact ih (s + 1) e (by omega)
          (fun c h1 h2 => hsome c (by omega) h2)
          ⟨col, by omega, hc2, hc3⟩

theorem validateCastlingWith_oracle_free {b : Board} (hWF : BoardWF b)
    {piece k : Piece} {pos kingPos : Position} {m : Move}
    (hpos : getSq b pos.row pos.col = some (some piece))
    (hk : getSq b kingPos.row kingPos.col = some (some k))
    (hkk : k.kind = PieceType.king) :
    ∀ O, validateCastlingWith O b piece pos kingPos m = some (b, false, m) := by
  intro O
  obtain ⟨hp1, hp2, hp3, hp4⟩ := getSq_bounds hpos
  obtain ⟨hk1, hk2, hk3, hk4⟩ := getSq_bounds hk
  by_cases hmv : piece.hasMoved = true
  · simp only [validateCastlingWith, hmv, if_true]
  · simp only [validateCastlingWith, hmv, Bool.false_eq_true, if_false]
    by_cases hgeo : pos.row = kingPos.row ∧ intAbs (kingPos.col - pos.col) = 2
    · rw [if_neg (not_not.mpr hgeo)]
      obtain ⟨hrow, habs⟩ := hgeo
      have habs' : kingPos.col - pos.col = 2 ∨ kingPos.col - pos.col = -2 :=
        (intAbs_eq_iff (by omega)).mp habs
      have hkEq : getSq b pos.row kingPos.col = some (some k) := by
        rw [hrow]; exact hk
      rcases habs' with hd | hd
      · -- king side: rookCol = 7
        rw [if_pos (show pos.col < kingPos.col by omega)]
        by_cases h7 : kingPos.col = 7
        · rw [← h7, hkEq]
          dsimp only
          rw [if_pos (Or.inl (by rw [hkk]; decide))]
        · obtain ⟨vr, hvr⟩ := getSq_isSome_of_WF hWF hp1 hp2 (by omega : (0:Int) ≤ 7)
            (by omega : (7:Int) < 8)
          rw [hvr]
          cases vr with
          | none => rfl
          | some rook =>
            dsimp only
            by_cases hknd : rook.kind ≠ PieceType.rook ∨ rook.hasMoved = true
            · rw [if_pos hknd]
            · rw [if_neg hknd]
              have hblocked : castlePathClear b pos.row 16 (min pos.col 7 + 1)
                  (max pos.col 7) = some false := by
                refine castlePathClear_blocked 16 _ _ (by omega) ?_ ?_
                · intro col h1 h2
                  obtain ⟨vc, hvc⟩ := @getSq_isSome_of_WF b hWF pos.row col hp1 hp2
                    (by omega) (by omega)
                  rw [hvc]; rfl
                · exact ⟨kingPos.col, by omega, by omega, by rw [hkEq]; simp⟩
              rw [hblocked]
      · -- queen side: rookCol = 0
        rw [if_neg (show ¬(pos.col < kingPos.col) by omega)]
        by_cases h0 : kingPos.col = 0
        · rw [← h0, hkEq]
          dsimp only
          rw [if_pos (Or.inl (by rw [hkk]; decide))]
        · obtain ⟨vr, hvr⟩ := getSq_isSome_of_WF hWF hp1 hp2 (by omega : (0:Int) ≤ 0)
            (by omega : (0:Int) < 8)
          rw [hvr]
          cases vr with
          | none => rfl
          | some rook =>
            dsimp only
            by_cases hknd : rook.kind ≠ PieceType.rook ∨ rook.hasMoved = true
            · rw [if_pos hknd]
            · rw [if_neg hknd]
              have hblocked : castlePathClear b pos.row 16 (min pos.col 0 + 1)
                  (max pos.col 0) = some false := by
                refine castlePathClear_blocked 16 _ _ (by omega) ?_ ?_
                · intro col h1 h2
                  obtain ⟨vc, hvc⟩ := @getSq_isSome_of_WF b hWF pos.row col hp1 hp2
                    (by omega) (by omega)
                  rw [hvc]; rfl
                · exact ⟨kingPos.col, by omega, by omega, by rw [hkEq]; simp⟩
              rw [hblocked]
    · rw [if_pos hgeo]

theorem IsValidPieceMoveWith_oracle_free {b : Board} (hWF : BoardWF b)
    {piece k : Piece} {pos kingPos : Position} {m : Move}
    (hpos : getSq b pos.row pos.col = some (some piece))
    (hk : getSq b kingPos.row kingPos.col = some (some k))
    (hkk : k.kind = PieceType.king) :
    ∃ ok m', ∀ O, IsValidPieceMoveWith O b (some piece) pos kingPos m = some (b, ok, m') := by
  obtain ⟨hp1, hp2, hp3, hp4⟩ := getSq_bounds hpos
  obtain ⟨hk1, hk2, hk3, hk4⟩ := getSq_bounds hk
  cases hkind : piece.kind with
  | pawn =>
    obtain ⟨r, hr⟩ := Option.isSome_iff_exists.mp
      (@validatePawnMove_isSome b hWF piece pos kingPos m hp1 hp2 hp3 hp4 hk1 hk2 hk3 hk4)
    obtain ⟨ok, m'⟩ := r
    exact ⟨ok, m', fun O => by
      simp only [IsValidPieceMoveWith, hkind, hr]⟩
  | rook =>
    by_cases hg : kingPos.row - pos.row = 0 ∨ kingPos.col - pos.col = 0
    · obtain ⟨v, hv⟩ := Option.isSome_iff_exists.mp
        (isPathClear_isSome hWF hp1 hp2 hp3 hp4 hk1 hk2 hk3 hk4
          (by rcases hg with h | h
              · exact Or.inl h
              · exact Or.inr (Or.inl h)))
      exact ⟨v, m, fun O => by
        simp only [IsValidPieceMoveWith, hkind]
        rw [if_pos hg, hv]⟩
    · exact ⟨false, m, fun O => by
        simp only [IsValidPieceMoveWith, hkind]
        rw [if_neg hg]⟩
  | knight =>
    exact ⟨decide (intAbs (kingPos.row - pos.row) = 2 ∧ intAbs (kingPos.col - pos.col) = 1 ∨
        intAbs (kingPos.row - pos.row) = 1 ∧ intAbs (kingPos.col - pos.col) = 2), m,
      fun O => by simp only [IsValidPieceMoveWith, hkind]⟩
  | bishop =>
    by_cases hg : intAbs (kingPos.row - pos.row) = intAbs (kingPos.col - pos.col)
    · obtain ⟨v, hv⟩ := Option.isSome_iff_exists.mp
        (isPathClear_isSome hWF hp1 hp2 hp3 hp4 hk1 hk2 hk3 hk4 (Or.inr (Or.inr hg)))
      exact ⟨v, m, fun O => by
        simp only [IsValidPieceMoveWith, hkind]
        rw [if_pos hg, hv]⟩
    · exact ⟨false, m, fun O => by
        simp only [IsValidPieceMoveWith, hkind]
        rw [if_neg hg]⟩
  | queen =>
    by_cases hg : kingPos.row - pos.row = 0 ∨ kingPos.col - pos.col = 0 ∨
        intAbs (kingPos.row - pos.row) = intAbs (kingPos.col - pos.col)
    · obtain ⟨v, hv⟩ := Option.isSome_iff_exists.mp
        (isPathClear_isSome hWF hp1 hp2 hp3 hp4 hk1 hk2 hk3 hk4 hg)
      exact ⟨v, m, fun O => by
        simp only [IsValidPieceMoveWith, hkind]
        rw [if_pos hg, hv]⟩
    · exact ⟨false, m, fun O => by
        simp only [IsValidPieceMoveWith, hkind]
        rw [if_neg hg]⟩
  | king =>
    by_cases hg : intAbs (kingPos.row - pos.row) ≤ 1 ∧ intAbs (kingPos.col - pos.col) ≤ 1
    · exact ⟨true, m, fun O => by
        simp only [IsValidPieceMoveWith, hkind]
        rw [if_pos hg]⟩
    · exact ⟨false, m, fun O => by
        simp only [IsValidPieceMoveWith, hkind]
        rw [if_neg hg]
        exact validateCastlingWith_oracle_free hWF hpos hk hkk O⟩

theorem ValidateMoveWith_oracle_free {b : Board} (hWF : BoardWF b)
    {piece k : Piece} {pos kingPos : Position}
    (hpos : getSq b pos.row pos.col = some (some piece))
    (hk : getSq b kingPos.row kingPos.col = some (some k))
    (hkk : k.kind = PieceType.king) (player : Player) :
    ∃ res, ∀ O, ValidateMoveWith O b pos kingPos player = some (b, res) := by
  obtain ⟨hk1, hk2, hk3, hk4⟩ := getSq_bounds hk
  have hval : isValidPosition kingPos = true := by
    unfold isValidPosition
    simp only [Bool.and_eq_true, decide_eq_true_eq]
    exact ⟨⟨⟨by omega, by omega⟩, by omega⟩, by omega⟩
  by_cases hfr : k.player = player
  · refine ⟨Except.error ChessError.friendlyCapture, fun O => ?_⟩
    unfold ValidateMoveWith
    rw [hpos, hk]
    dsimp only
    rw [hval, if_neg (by simp), if_pos hfr]
  · obtain ⟨ok, m', hm'⟩ := @IsValidPieceMoveWith_oracle_free b hWF piece k pos kingPos
      ⟨pos, kingPos, some piece, some k, false, false⟩ hpos hk hkk
    refine ⟨if ok then Except.ok m' else Except.error ChessError.invalidPieceMove,
      fun O => ?_⟩
    unfold ValidateMoveWith
    rw [hpos, hk]
    dsimp only
    rw [hval, if_neg (by simp), if_neg hfr, hm' O]
    dsimp only
    split <;> rfl

theorem inCheckScan_oracle_free {b : Board} (hWF : BoardWF b)
    {k : Piece} {kingPos : Position} {player : Player}
    (hk : getSq b kingPos.row kingPos.col = some (some k))
    (hkk : k.kind = PieceType.king) :
    ∀ (l : List Position),
      (∀ p ∈ l, 0 ≤ p.row ∧ p.row < 8 ∧ 0 ≤ p.col ∧ p.col < 8) →
      ∃ res, ∀ O, inCheckScan O kingPos player l b = some (b, res) := by
  intro l
  induction l with
  | nil => exact fun _ => ⟨false, fun O => rfl⟩
  | cons pos rest ih =>
    intro hbounds
    obtain ⟨hb1, hb2, hb3, hb4⟩ := hbounds pos (List.mem_cons_self pos rest)
    have hrest := fun p hp => hbounds p (List.mem_cons_of_mem pos hp)
    obtain ⟨resRest, hresRest⟩ := ih hrest
    obtain ⟨vp, hvp⟩ := @getSq_isSome_of_WF b hWF pos.row pos.col hb1 hb2 hb3 hb4
    cases vp with
    | none =>
      refine ⟨resRest, fun O => ?_⟩
      unfold inCheckScan
      rw [hvp]
      exact hresRest O
    | some piece =>
      by_cases hpl : piece.player = player
      · refine ⟨resRest, fun O => ?_⟩
        unfold inCheckScan
        rw [hvp]
        dsimp only
        rw [if_pos hpl]
        exact hresRest O
      · obtain ⟨res1, hres1⟩ := ValidateMoveWith_oracle_free hWF hvp hk hkk piece.player
        cases res1 with
        | error e =>
          refine ⟨resRest, fun O => ?_⟩
          unfold inCheckScan
          rw [hvp]
          dsimp only
          rw [if_neg hpl, hres1 O]
          exact hresRest O
        | ok mv =>
          obtain ⟨ok2, m2, hm2⟩ := @IsValidPieceMoveWith_oracle_free b hWF piece k
            pos kingPos mv hvp hk hkk
          cases hok2 : ok2 with
          | true =>
            refine ⟨true, fun O => ?_⟩
            unfold inCheckScan
            rw [hvp]
            dsimp only
            rw [if_neg hpl, hres1 O]
            dsimp only
            rw [hm2 O]
            dsimp only
            rw [hok2]
            rfl
          | false =>
            refine ⟨resRest, fun O => ?_⟩
            unfold inCheckScan
            rw [hvp]
            dsimp only
            rw [if_neg hpl, hres1 O]
            dsimp only
            rw [hm2 O]
            dsimp only
            rw [hok2]
            exact hresRest O

/-- C4 (amended): whenever the queried side's cached king square holds a
piece of kind king (as in every state the program itself builds — the
cache names the square the king occupies), `IsInCheck` terminates
without re-entering check detection: a single activation (fuel 1)
returns a result, and any larger fuel computes the same result, so no
nested `IsInCheck` call is ever consulted.  Castling validation IS still
invoked for far-away enemy-king candidates, but it fails its rook or
path-clearance test — which covers the cached king square — before it
reaches its check-detection calls. -/
theorem c4_incheck_terminates_without_reentry (b : Board) (player : Player) (k : Piece)
    (hWF : BoardWF b)
    (hk : getSq b (kingSquare b player).row (kingSquare b player).col = some (some k))
    (hkk : k.kind = PieceType.king) :
    (IsInCheckF 1 b player).isSome ∧
    ∀ fuel : Nat, IsInCheckF (fuel + 1) b player = IsInCheckF 1 b player := by
  obtain ⟨res, hres⟩ := inCheckScan_oracle_free hWF hk hkk scanPositions (by decide)
  have hfuel : ∀ fuel : Nat, IsInCheckF (fuel + 1) b player = some (b, res) := by
    intro fuel
    show inCheckScan (IsInCheckF fuel)
      (if player = Player.black then b.blackKing else b.whiteKing) player scanPositions b
        = some (b, res)
    exact hres (IsInCheckF fuel)
  refine ⟨?_, fun fuel => by rw [hfuel fuel, hfuel 0]⟩
  rw [hfuel 0]
  exact Option.isSome_some

/-- The board for C4's counterexample: the white-king cache names the
EMPTY square (0,6); an unmoved black king on (0,4) and unmoved black
rook on (0,7) make the enemy-king castling branch reach its nested
check-detection call. -/
def bC4 : Board := mkBoard
  [ (0, 4, bPc PieceType.king false), (0, 7, bPc PieceType.rook false) ]
  zeroMove ⟨0, 6⟩ ⟨0, 4⟩

/-- C4 counterexample: on `bC4` a single activation of `IsInCheck` does
not complete (fuel 1 is exhausted: the scan re-enters check detection
through the black king's castling validation), while two activations
return `true`.  So `IsInCheck` is not free of nested castling validation
or recursive in-check calls in general. -/
theorem c4_incheck_reenters_counterexample :
    IsInCheckF 1 bC4 Player.white = none ∧
    (IsInCheckF 2 bC4 Player.white).map (fun x => x.2) = some true ∧
    BoardWF bC4 ∧ getSq bC4 0 6 = some none := by
  refine ⟨by decide, by decide, ⟨by decide, by decide⟩, by decide⟩

/-- Witness for C4 at a concrete input: the initial board, White. -/
theorem c4_incheck_terminates_without_reentry_witness :
    BoardWF NewBoard ∧
    getSq NewBoard (kingSquare NewBoard Player.white).row
      (kingSquare NewBoard Player.white).col
      = some (some (wPc PieceType.king false)) ∧
    (IsInCheckF 1 NewBoard Player.white).isSome = true := by
  refine ⟨⟨by decide, by decide⟩, by decide, ?_⟩
  exact (c4_incheck_terminates_without_reentry NewBoard Player.white
    (wPc PieceType.king false) ⟨by decide, by decide⟩ (by decide) rfl).1

/-! ## C5 -/

/-- The en-passant eligibility conditions exactly as the claim states
them: the recorded last move was a pawn double-step, the capturing pawn
stands on row 3 (White) / row 4 (Black) with the double-stepped pawn on
the same row, and the destination column equals that pawn's column. -/
def epClaimConditions (b : Board) (oldPos newPos : Position) (player : Player) : Prop :=
  b.lastMove.piece.map Piece.kind = some PieceType.pawn ∧
  intAbs (b.lastMove.fromPos.row - b.lastMove.toPos.row) = 2 ∧
  oldPos.row = (if player = Player.black then (4 : Int) else 3) ∧
  b.lastMove.toPos.row = oldPos.row ∧
  b.lastMove.toPos.col = newPos.col

theorem canEnPassant_iff_claim {b : Board} {oldPos newPos : Position} {player : Player} :
    canEnPassant b oldPos newPos player = true ↔
      epClaimConditions b oldPos newPos player := by
  unfold canEnPassant epClaimConditions
  cases hlp : b.lastMove.piece with
  | none => simp
  | some lp =>
    dsimp only
    constructor
    · intro h
      by_cases h1 : lp.kind ≠ PieceType.pawn
      · rw [if_pos h1] at h; exact absurd h (by simp)
      · rw [if_neg h1] at h
        by_cases h2 : intAbs (b.lastMove.fromPos.row - b.lastMove.toPos.row) ≠ 2
        · rw [if_pos h2] at h; exact absurd h (by simp)
        · rw [if_neg h2] at h
          by_cases h3 : oldPos.row ≠ (if player = Player.black then (4 : Int) else 3)
          · rw [if_pos h3] at h; exact absurd h (by simp)
          · rw [if_neg h3] at h
            rw [Bool.and_eq_true, beq_iff_eq, beq_iff_eq] at h
            exact ⟨by simp [not_not.mp h1], not_not.mp h2, not_not.mp h3, h.2, h.1⟩
    · rintro ⟨c1, c2, c3, c4, c5⟩
      simp only [Option.map_some', Option.some.injEq] at c1
      rw [if_neg (by simp [c1]), if_neg (by simp [c2]), if_neg (by simp [c3])]
      rw [Bool.and_eq_true, beq_iff_eq, beq_iff_eq]
      exact ⟨c5, c4⟩

theorem getSq_setSq_self {b b' : Board} {r c : Int} {v w : Option Piece}
    (h : setSq b r c v = some b') (hold : getSq b r c = some w) :
    getSq b' r c = some v := by
  obtain ⟨hb1, hb2, hb3, hb4⟩ := getSq_bounds hold
  obtain ⟨row, hrow, hsq⟩ := setSq_squares h
  obtain ⟨row', hrow', hcell⟩ := getSq_row hold
  rw [hrow] at hrow'
  cases hrow'
  have hrlen : r.toNat < b.squares.length := by
    by_contra hge
    rw [List.getElem?_eq_none (by omega)] at hrow
    exact Option.noConfusion hrow
  have hclen : c.toNat < row.length := by
    by_contra hge
    rw [List.getElem?_eq_none (by omega)] at hcell
    exact Option.noConfusion hcell
  unfold getSq
  rw [if_pos ⟨hb1, hb2, hb3, hb4⟩, hsq,
    List.getElem?_set_self (by simpa using hrlen)]
  dsimp only
  rw [List.getElem?_set_self (by simpa using hclen)]

theorem getSq_setSq_ne {b b' : Board} {r c r' c' : Int} {v : Option Piece}
    (h : setSq b r c v = some b') (hne : r ≠ r' ∨ c ≠ c') :
    getSq b' r' c' = getSq b r' c' := by
  obtain ⟨row, hrow, hsq⟩ := setSq_squares h
  have hbnd : 0 ≤ r ∧ r < 8 ∧ 0 ≤ c ∧ c < 8 := by
    unfold setSq at h
    split at h
    · next hcond => exact hcond
    · exact Option.noConfusion h
  by_cases hb' : 0 ≤ r' ∧ r' < 8 ∧ 0 ≤ c' ∧ c' < 8
  · unfold getSq
    rw [if_pos hb', if_pos hb', hsq]
    by_cases hrr : r.toNat = r'.toNat
    · have hreq : r = r' := by omega
      have hcc : c.toNat ≠ c'.toNat := by
        rcases hne with hq | hq
        · exact absurd hreq hq
        · omega
      rw [← hrr, List.getElem?_set_self ?hlen, hrow]
      · dsimp only
        rw [List.getElem?_set_ne hcc]
      · have : b.squares[r.toNat]? = some row := hrow
        by_contra hge
        rw [List.getElem?_eq_none (by omega)] at this
        exact Option.noConfusion this
    · rw [List.getElem?_set_ne hrr]
  · unfold getSq
    rw [if_neg hb', if_neg hb']

/-- C5: a pawn's diagonal step onto an empty square validates as en
passant exactly when the claim's conditions hold (last move a pawn
double-step, capturing pawn on row 3 for White / row 4 for Black with
the double-stepped pawn on the same row, destination column equal to
that pawn's column); and applying such a move removes the captured pawn
from its own square (source row, destination column), not from the
destination square, which receives the capturing pawn. -/
theorem c5_enpassant_validation_and_capture (fuel : Nat) (b : Board)
    (oldPos newPos : Position) (player : Player) (pc : Piece)
    (hWF : BoardWF b)
    (hpc : getSq b oldPos.row oldPos.col = some (some pc))
    (hkind : pc.kind = PieceType.pawn) (hpl : pc.player = player)
    (hdest : getSq b newPos.row newPos.col = some none)
    (hdr : newPos.row - oldPos.row = (if player = Player.black then (1 : Int) else -1))
    (hdc : intAbs (newPos.col - oldPos.col) = 1) :
    ((ValidateMoveWith (IsInCheckF fuel) b oldPos newPos player
        = some (b, Except.ok ⟨oldPos, newPos, some pc, none, true, false⟩))
      ↔ epClaimConditions b oldPos newPos player) ∧
    ∀ b2, makeMove b ⟨oldPos, newPos, some pc, none, true, false⟩ = some b2 →
      getSq b2 oldPos.row newPos.col = some none ∧
      getSq b2 newPos.row newPos.col = some (some { pc with hasMoved := true }) := by
  obtain ⟨hp1, hp2, hp3, hp4⟩ := getSq_bounds hpc
  obtain ⟨hn1, hn2, hn3, hn4⟩ := getSq_bounds hdest
  have hdc' : newPos.col - oldPos.col = 1 ∨ newPos.col - oldPos.col = -1 :=
    (intAbs_eq_iff (by omega)).mp hdc
  have hvalid : isValidPosition newPos = true := by
    unfold isValidPosition
    simp only [Bool.and_eq_true, decide_eq_true_eq]
    exact ⟨⟨⟨hn1, hn2⟩, hn3⟩, hn4⟩
  constructor
  · unfold ValidateMoveWith
    rw [hpc, hdest]
    dsimp only
    rw [hvalid, if_neg (by simp)]
    unfold IsValidPieceMoveWith
    dsimp only
    rw [hkind]
    dsimp only
    unfold validatePawnMove
    dsimp only
    rw [hpl]
    rw [if_neg (fun hq => by omega)]
    rw [if_neg (fun hq => by
      have := hq.2.1
      omega)]
    rw [if_pos ⟨hdr, hdc⟩, hdest]
    dsimp only
    by_cases hep : canEnPassant b oldPos newPos player = true
    · rw [if_pos hep]
      exact iff_of_true rfl (canEnPassant_iff_claim.mp hep)
    · rw [if_neg hep]
      exact iff_of_false (by simp) (fun hc => hep (canEnPassant_iff_claim.mpr hc))
  · intro b2 hmk
    unfold makeMove at hmk
    dsimp only at hmk
    rw [if_neg Bool.false_ne_true] at hmk
    dsimp only at hmk
    rw [if_pos rfl] at hmk
    cases hs1 : setSq b oldPos.row newPos.col none with
    | none => rw [hs1] at hmk; exact Option.noConfusion hmk
    | some ba =>
      rw [hs1] at hmk
      dsimp only at hmk
      cases hs2 : setSq ba newPos.row newPos.col (some { pc with hasMoved := true }) with
      | none => rw [hs2] at hmk; exact Option.noConfusion hmk
      | some bb =>
        rw [hs2] at hmk
        dsimp only at hmk
        cases hs3 : setSq bb oldPos.row oldPos.col none with
        | none => rw [hs3] at hmk; exact Option.noConfusion hmk
        | some bc =>
          rw [hs3] at hmk
          dsimp only at hmk
          rw [if_neg (by rw [hkind]; simp)] at hmk
          cases hmk
          have hcell1 : getSq bc oldPos.row newPos.col = some none := by
            rw [getSq_setSq_ne hs3 (Or.inr (by omega)),
              getSq_setSq_ne hs2 (Or.inl (by omega))]
            obtain ⟨w, hw⟩ := @getSq_isSome_of_WF b hWF oldPos.row newPos.col
              hp1 hp2 hn3 hn4
            exact getSq_setSq_self hs1 hw
          have hcell2 : getSq bc newPos.row newPos.col
              = some (some { pc with hasMoved := true }) := by
            rw [getSq_setSq_ne hs3 (Or.inl (by omega))]
            have hw : getSq ba newPos.row newPos.col = some none := by
              rw [getSq_setSq_ne hs1 (Or.inl (by omega))]
              exact hdest
            exact getSq_setSq_self hs2 hw
          exact ⟨hcell1, hcell2⟩

/-- Witness for C5 at a concrete input: the en-passant position `bC1`,
where the eligibility conditions hold and the capture validates. -/
theorem c5_enpassant_validation_and_capture_witness :
    (BoardWF bC1 ∧ getSq bC1 3 4 = some (some (wPc PieceType.pawn true)) ∧
      epClaimConditions bC1 ⟨3, 4⟩ ⟨2, 3⟩ Player.white) ∧
    ValidateMoveWith (IsInCheckF 1) bC1 ⟨3, 4⟩ ⟨2, 3⟩ Player.white
      = some (bC1, Except.ok ⟨⟨3, 4⟩, ⟨2, 3⟩, some (wPc PieceType.pawn true),
          none, true, false⟩) := by
  refine ⟨⟨⟨by decide, by decide⟩, by decide, by unfold epClaimConditions; decide⟩, ?_⟩
  exact (c5_enpassant_validation_and_capture 1 bC1 ⟨3, 4⟩ ⟨2, 3⟩ Player.white
    (wPc PieceType.pawn true) ⟨by decide, by decide⟩ (by decide) (by decide)
    (by decide) (by decide) (by decide) (by decide)).1.mpr
    (by unfold epClaimConditions; decide)

/-! ## C9: rook geometry -/

theorem pathClearGo_row_iff {b : Board} (hWF : BoardWF b) {t : Position} {d : Int}
    (hd : d = 1 ∨ d = -1) (ht1 : 0 ≤ t.row) (ht2 : t.row < 8)
    (ht3 : 0 ≤ t.col) (ht4 : t.col < 8) :
    ∀ (n fuel : Nat) (c : Int), n < fuel → t.col - c = n * d → 0 ≤ c → c < 8 →
      ((pathClearGo b 0 d t fuel t.row c = some true) ↔
        (∀ x : Int, (c - x) * d ≤ 0 → (x - t.col) * d < 0 →
          getSq b t.row x = some none)) := by
  intro n
  induction n with
  | zero =>
    intro fuel c hfuel hcol hc1 hc2
    cases fuel with
    | zero => omega
    | succ f =>
      unfold pathClearGo
      rw [if_pos ⟨rfl, by rcases hd with h | h <;> (subst h; omega)⟩]
      refine iff_of_true rfl ?_
      intro x h1 h2
      rcases hd with h | h <;> (subst h; exact absurd h1 (by omega))
  | succ n ih =>
    intro fuel c hfuel hcol hc1 hc2
    cases fuel with
    | zero => omega
    | succ f =>
      unfold pathClearGo
      rw [if_neg (by
        rintro ⟨_, hq⟩
        rcases hd with h | h <;> (subst h; omega))]
      obtain ⟨v, hv⟩ := @getSq_isSome_of_WF b hWF t.row c ht1 ht2 hc1 hc2
      rw [hv]
      cases v with
      | some p =>
        refine iff_of_false (by simp) ?_
        intro hall
        have hx := hall c (by rcases hd with h | h <;> (subst h; omega))
          (by rcases hd with h | h <;> (subst h; omega))
        rw [hv] at hx
        exact Option.noConfusion hx (fun he => Option.noConfusion he)
      | none =>
        have hrec := ih f (c + d) (by omega)
          (by rcases hd with h | h <;> (subst h; push_cast at hcol ⊢; omega))
          (by rcases hd with h | h <;> (subst h; push_cast at hcol; omega))
          (by rcases hd with h | h <;> (subst h; push_cast at hcol; omega))
        dsimp only
        rw [add_zero, hrec]
        constructor
        · intro hall x h1 h2
          by_cases hx : x = c
          · subst hx; exact hv
          · exact hall x (by rcases hd with h | h <;> (subst h; omega)) h2
        · intro hall x h1 h2
          exact hall x (by rcases hd with h | h <;> (subst h; omega)) h2

theorem pathClearGo_col_iff {b : Board} (hWF : BoardWF b) {t : Position} {d : Int}
    (hd : d = 1 ∨ d = -1) (ht1 : 0 ≤ t.row) (ht2 : t.row < 8)
    (ht3 : 0 ≤ t.col) (ht4 : t.col < 8) :
    ∀ (n fuel : Nat) (r : Int), n < fuel → t.row - r = n * d → 0 ≤ r → r < 8 →
      ((pathClearGo b d 0 t fuel r t.col = some true) ↔
        (∀ x : Int, (r - x) * d ≤ 0 → (x - t.row) * d < 0 →
          getSq b x t.col = some none)) := by
  intro n
  induction n with
  | zero =>
    intro fuel r hfuel hrow hr1 hr2
    cases fuel with
    | zero => omega
    | succ f =>
      unfold pathClearGo
      rw [if_pos ⟨by rcases hd with h | h <;> (subst h; omega), rfl⟩]
      refine iff_of_true rfl ?_
      intro x h1 h2
      rcases hd with h | h <;> (subst h; exact absurd h1 (by omega))
  | succ n ih =>
    intro fuel r hfuel hrow hr1 hr2
    cases fuel with
    | zero => omega
    | succ f =>
      unfold pathClearGo
      rw [if_neg (by
        rintro ⟨hq, _⟩
        rcases hd with h | h <;> (subst h; omega))]
      obtain ⟨v, hv⟩ := @getSq_isSome_of_WF b hWF r t.col hr1 hr2 ht3 ht4
      rw [hv]
      cases v with
      | some p =>
        refine iff_of_false (by simp) ?_
        intro hall
        have hx := hall r (by rcases hd with h | h <;> (subst h; omega))
          (by rcases hd with h | h <;> (subst h; omega))
        rw [hv] at hx
        exact Option.noConfusion hx (fun he => Option.noConfusion he)
      | none =>
        have hrec := ih f (r + d) (by omega)
          (by rcases hd with h | h <;> (subst h; push_cast at hrow ⊢; omega))
          (by rcases hd with h | h <;> (subst h; push_cast at hrow; omega))
          (by rcases hd with h | h <;> (subst h; push_cast at hrow; omega))
        dsimp only
        rw [add_zero, hrec]
        constructor
        · intro hall x h1 h2
          by_cases hx : x = r
          · subst hx; exact hv
          · exact hall x (by rcases hd with h | h <;> (subst h; omega)) h2
        · intro hall x h1 h2
          exact hall x (by rcases hd with h | h <;> (subst h; omega)) h2

theorem isPathClear_row_iff {b : Board} (hWF : BoardWF b) {oldPos newPos : Position}
    (ho3 : 0 ≤ oldPos.col) (ho4 : oldPos.col < 8)
    (hn1 : 0 ≤ newPos.row) (hn2 : newPos.row < 8)
    (hn3 : 0 ≤ newPos.col) (hn4 : newPos.col < 8)
    (hrow : oldPos.row = newPos.row) (hcne : oldPos.col ≠ newPos.col) :
    (isPathClear b oldPos newPos = some true ↔
      ∀ x : Int, min oldPos.col newPos.col < x → x < max oldPos.col newPos.col →
        getSq b newPos.row x = some none) := by
  unfold isPathClear
  have h0 : intSign (newPos.row - oldPos.row) = 0 := intSign_eq_zero_iff.mpr (by omega)
  rw [h0]
  have hsign : (intSign (newPos.col - oldPos.col) = 1 ∧ 0 < newPos.col - oldPos.col) ∨
      (intSign (newPos.col - oldPos.col) = -1 ∧ newPos.col - oldPos.col < 0) := by
    rcases intSign_cases (newPos.col - oldPos.col) with h | h | h
    · exact Or.inr ⟨h, intSign_eq_neg_one_iff.mp h⟩
    · exact absurd (intSign_eq_zero_iff.mp h) (by omega)
    · exact Or.inl ⟨h, intSign_eq_one_iff.mp h⟩
  have hd : intSign (newPos.col - oldPos.col) = 1 ∨ intSign (newPos.col - oldPos.col) = -1 := by
    rcases hsign with ⟨h, _⟩ | ⟨h, _⟩
    · exact Or.inl h
    · exact Or.inr h
  have hkey := pathClearGo_row_iff hWF hd hn1 hn2 hn3 hn4
    ((newPos.col - oldPos.col).natAbs - 1) 16
    (oldPos.col + intSign (newPos.col - oldPos.col))
    (by omega)
    (by rcases hsign with ⟨h, hc⟩ | ⟨h, hc⟩ <;> (rw [h]; omega))
    (by rcases hsign with ⟨h, hc⟩ | ⟨h, hc⟩ <;> (rw [h]; omega))
    (by rcases hsign with ⟨h, hc⟩ | ⟨h, hc⟩ <;> (rw [h]; omega))
  dsimp only
  rw [add_zero, hrow, hkey]
  constructor
  · intro hall x h1 h2
    refine hall x ?_ ?_ <;>
      (rcases hsign with ⟨h, hc⟩ | ⟨h, hc⟩ <;> (rw [h]; omega))
  · intro hall x h1 h2
    rcases hsign with ⟨h, hc⟩ | ⟨h, hc⟩ <;> (rw [h] at h1 h2; exact hall x (by omega) (by omega))

theorem isPathClear_col_iff {b : Board} (hWF : BoardWF b) {oldPos newPos : Position}
    (ho1 : 0 ≤ oldPos.row) (ho2 : oldPos.row < 8)
    (hn1 : 0 ≤ newPos.row) (hn2 : newPos.row < 8)
    (hn3 : 0 ≤ newPos.col) (hn4 : newPos.col < 8)
    (hcol : oldPos.col = newPos.col) (hrne : oldPos.row ≠ newPos.row) :
    (isPathClear b oldPos newPos = some true ↔
      ∀ x : Int, min oldPos.row newPos.row < x → x < max oldPos.row newPos.row →
        getSq b x newPos.col = some none) := by
  unfold isPathClear
  have h0 : intSign (newPos.col - oldPos.col) = 0 := intSign_eq_zero_iff.mpr (by omega)
  rw [h0]
  have hsign : (intSign (newPos.row - oldPos.row) = 1 ∧ 0 < newPos.row - oldPos.row) ∨
      (intSign (newPos.row - oldPos.row) = -1 ∧ newPos.row - oldPos.row < 0) := by
    rcases intSign_cases (newPos.row - oldPos.row) with h | h | h
    · exact Or.inr ⟨h, intSign_eq_neg_one_iff.mp h⟩
    · exact absurd (intSign_eq_zero_iff.mp h) (by omega)
    · exact Or.inl ⟨h, intSign_eq_one_iff.mp h⟩
  have hd : intSign (newPos.row - oldPos.row) = 1 ∨ intSign (newPos.row - oldPos.row) = -1 := by
    rcases hsign with ⟨h, _⟩ | ⟨h, _⟩
    · exact Or.inl h
    · exact Or.inr h
  have hkey := pathClearGo_col_iff hWF hd hn1 hn2 hn3 hn4
    ((newPos.row - oldPos.row).natAbs - 1) 16
    (oldPos.row + intSign (newPos.row - oldPos.row))
    (by omega)
    (by rcases hsign with ⟨h, hc⟩ | ⟨h, hc⟩ <;> (rw [h]; omega))
    (by rcases hsign with ⟨h, hc⟩ | ⟨h, hc⟩ <;> (rw [h]; omega))
    (by rcases hsign with ⟨h, hc⟩ | ⟨h, hc⟩ <;> (rw [h]; omega))
  dsimp only
  rw [add_zero, hcol, hkey]
  constructor
  · intro hall x h1 h2
    refine hall x ?_ ?_ <;>
      (rcases hsign with ⟨h, hc⟩ | ⟨h, hc⟩ <;> (rw [h]; omega))
  · intro hall x h1 h2
    rcases hsign with ⟨h, hc⟩ | ⟨h, hc⟩ <;> (rw [h] at h1 h2; exact hall x (by omega) (by omega))

/-- The spec's geometry rule for a rook: the displacement is purely
horizontal or purely vertical (and nonzero), and every square strictly
between source and destination is empty. -/
def rookGeom (b : Board) (oldPos newPos : Position) : Prop :=
  (oldPos.row = newPos.row ∧ oldPos.col ≠ newPos.col ∧
    ∀ x : Int, min oldPos.col newPos.col < x → x < max oldPos.col newPos.col →
      getSq b newPos.row x = some none) ∨
  (oldPos.col = newPos.col ∧ oldPos.row ≠ newPos.row ∧
    ∀ x : Int, min oldPos.row newPos.row < x → x < max oldPos.row newPos.row →
      getSq b x newPos.col = some none)

theorem IsValidPieceMoveWith_rook_iff
    (inCheck : Board → Player → Option (Board × Bool))
    {b : Board} (hWF : BoardWF b) {oldPos newPos : Position} {pc : Piece} (m : Move)
    (ho1 : 0 ≤ oldPos.row) (ho2 : oldPos.row < 8)
    (ho3 : 0 ≤ oldPos.col) (ho4 : oldPos.col < 8)
    (hn1 : 0 ≤ newPos.row) (hn2 : newPos.row < 8)
    (hn3 : 0 ≤ newPos.col) (hn4 : newPos.col < 8)
    (hkind : pc.kind = PieceType.rook)
    (hne : ¬(oldPos.row = newPos.row ∧ oldPos.col = newPos.col)) :
    (IsValidPieceMoveWith inCheck b (some pc) oldPos newPos m = some (b, true, m) ↔
      rookGeom b oldPos newPos) ∧
    (¬ rookGeom b oldPos newPos →
      IsValidPieceMoveWith inCheck b (some pc) oldPos newPos m = some (b, false, m)) := by
  unfold IsValidPieceMoveWith
  dsimp only
  rw [hkind]
  by_cases hr : oldPos.row = newPos.row
  · have hc : oldPos.col ≠ newPos.col := fun h => hne ⟨hr, h⟩
    rw [if_pos (Or.inl (by omega : newPos.row - oldPos.row = 0))]
    obtain ⟨pv, hpv⟩ := Option.isSome_iff_exists.mp
      (isPathClear_isSome hWF ho1 ho2 ho3 ho4 hn1 hn2 hn3 hn4 (Or.inl (by omega)))
    have hiff := isPathClear_row_iff hWF ho3 ho4 hn1 hn2 hn3 hn4 hr hc
    have hgeom : rookGeom b oldPos newPos ↔ pv = true := by
      constructor
      · rintro (⟨_, _, hall⟩ | ⟨hcol, _, _⟩)
        · have hone : isPathClear b oldPos newPos = some true := hiff.mpr hall
          rw [hpv] at hone
          exact Option.some.inj hone
        · exact absurd hcol hc
      · intro hv
        rw [hv] at hpv
        exact Or.inl ⟨hr, hc, hiff.mp hpv⟩
    rw [hpv]
    dsimp only
    cases pv with
    | true =>
      refine ⟨iff_of_true rfl (hgeom.mpr rfl), fun hng => absurd (hgeom.mpr rfl) hng⟩
    | false =>
      refine ⟨iff_of_false (by simp) (fun hg => Bool.false_ne_true (hgeom.mp hg)), fun _ => rfl⟩
  · by_cases hc : oldPos.col = newPos.col
    · rw [if_pos (Or.inr (by omega : newPos.col - oldPos.col = 0))]
      obtain ⟨pv, hpv⟩ := Option.isSome_iff_exists.mp
        (isPathClear_isSome hWF ho1 ho2 ho3 ho4 hn1 hn2 hn3 hn4 (Or.inr (Or.inl (by omega))))
      have hiff := isPathClear_col_iff hWF ho1 ho2 hn1 hn2 hn3 hn4 hc hr
      have hgeom : rookGeom b oldPos newPos ↔ pv = true := by
        constructor
        · rintro (⟨hrow, _, _⟩ | ⟨_, _, hall⟩)
          · exact absurd hrow hr
          · have hone : isPathClear b oldPos newPos = some true := hiff.mpr hall
            rw [hpv] at hone
            exact Option.some.inj hone
        · intro hv
          rw [hv] at hpv
          exact Or.inr ⟨hc, hr, hiff.mp hpv⟩
      rw [hpv]
      dsimp only
      cases pv with
      | true =>
        refine ⟨iff_of_true rfl (hgeom.mpr rfl), fun hng => absurd (hgeom.mpr rfl) hng⟩
      | false =>
        refine ⟨iff_of_false (by simp) (fun hg => Bool.false_ne_true (hgeom.mp hg)),
          fun _ => rfl⟩
    · rw [if_neg (by rintro (h | h) <;> omega :
        ¬(newPos.row - oldPos.row = 0 ∨ newPos.col - oldPos.col = 0))]
      refine ⟨iff_of_false (by simp) ?_, fun _ => rfl⟩
      rintro (⟨hrow, _, _⟩ | ⟨hcol, _, _⟩)
      · exact hr hrow
      · exact hc hcol

/-- C9 (amended): for a rook of the moving player on a well-formed board
and an in-bounds destination **whose square does not hold a friendly
piece**, `ValidateMove` succeeds (returning the move record and the
untouched board) exactly when the rook geometry rule holds — the
displacement is purely horizontal or vertical and every strictly
intervening square is empty — and returns the `invalidPieceMove`
rejection whenever the geometry rule fails.  The friendly-destination
proviso is necessary: the original claim, quantified over every
destination, is refuted by `c9_rook_geometry_counterexample`. -/
theorem c9_rook_geometry (inCheck : Board → Player → Option (Board × Bool))
    {b : Board} (hWF : BoardWF b) {oldPos newPos : Position} {pc : Piece}
    {capOpt : Option Piece} {player : Player}
    (hn1 : 0 ≤ newPos.row) (hn2 : newPos.row < 8)
    (hn3 : 0 ≤ newPos.col) (hn4 : newPos.col < 8)
    (hpc : getSq b oldPos.row oldPos.col = some (some pc))
    (hkind : pc.kind = PieceType.rook) (hpl : pc.player = player)
    (hcap : getSq b newPos.row newPos.col = some capOpt)
    (hnf : ∀ cap, capOpt = some cap → cap.player ≠ player) :
    (ValidateMoveWith inCheck b oldPos newPos player =
        some (b, Except.ok ⟨oldPos, newPos, some pc, capOpt, false, false⟩) ↔
      rookGeom b oldPos newPos) ∧
    (¬ rookGeom b oldPos newPos →
      ValidateMoveWith inCheck b oldPos newPos player =
        some (b, Except.error ChessError.invalidPieceMove)) := by
  obtain ⟨ho1, ho2, ho3, ho4⟩ := getSq_bounds hpc
  have hne : ¬(oldPos.row = newPos.row ∧ oldPos.col = newPos.col) := by
    rintro ⟨h1, h2⟩
    rw [h1, h2, hcap] at hpc
    exact hnf pc (Option.some.inj hpc) hpl
  have hvp : ¬(isValidPosition newPos = false) := by
    have hv : isValidPosition newPos = true := by
      simp only [isValidPosition, Bool.and_eq_true, decide_eq_true_eq]
      omega
    rw [hv]
    intro h
    exact Bool.noConfusion h
  obtain ⟨hiff, hfail⟩ := IsValidPieceMoveWith_rook_iff inCheck hWF
    ⟨oldPos, newPos, some pc, capOpt, false, false⟩
    ho1 ho2 ho3 ho4 hn1 hn2 hn3 hn4 hkind hne
  have hred : ValidateMoveWith inCheck b oldPos newPos player =
      (match IsValidPieceMoveWith inCheck b (some pc) oldPos newPos
          ⟨oldPos, newPos, some pc, capOpt, false, false⟩ with
        | none => none
        | some (b', ok, m') =>
          if ok then some (b', Except.ok m')
          else some (b', Except.error ChessError.invalidPieceMove)) := by
    unfold ValidateMoveWith
    rw [hpc, hcap]
    dsimp only
    rw [if_neg hvp]
    cases capOpt with
    | none => rfl
    | some cap =>
      dsimp only
      rw [if_neg (hnf cap rfl)]
  constructor
  · constructor
    · intro hEq
      by_contra hng
      rw [hred, hfail hng] at hEq
      simp at hEq
    · intro hg
      rw [hred, hiff.mpr hg]
      dsimp only
      rw [if_pos rfl]
  · intro hng
    rw [hred, hfail hng]
    dsimp only
    rw [if_neg Bool.false_ne_true]

/-- Board refuting the unrestricted C9: a white rook on a1 with a
white pawn directly in front of it on a2. -/
def bC9 : Board := mkBoard
  [ (7, 0, wPc PieceType.rook true), (6, 0, wPc PieceType.pawn false),
    (7, 4, wPc PieceType.king false), (0, 4, bPc PieceType.king false) ]
  zeroMove ⟨7, 4⟩ ⟨0, 4⟩

/-- C9 counterexample to the original claim: the move a1-a2 satisfies
the rook geometry rule (purely vertical, no strictly intervening
square), yet `ValidateMove` neither succeeds nor returns the
illegal-geometry rejection — the friendly-capture test fires first. -/
theorem c9_friendly_capture_counterexample :
    rookGeom bC9 ⟨7, 0⟩ ⟨6, 0⟩ ∧
    ValidateMoveWith (IsInCheckF 1) bC9 ⟨7, 0⟩ ⟨6, 0⟩ Player.white =
      some (bC9, Except.error ChessError.friendlyCapture) := by
  constructor
  · refine Or.inr ⟨rfl, by decide, ?_⟩
    intro x h1 h2
    dsimp only at h1 h2
    exact absurd (And.intro h1 h2) (by omega)
  · decide

theorem c9_rook_geometry_witness :
    ValidateMoveWith (IsInCheckF 1) bC9 ⟨7, 0⟩ ⟨7, 3⟩ Player.white =
      some (bC9, Except.ok
        ⟨⟨7, 0⟩, ⟨7, 3⟩, some (wPc PieceType.rook true), none, false, false⟩) :=
  (c9_rook_geometry (IsInCheckF 1) (by unfold BoardWF; decide) (by decide) (by decide)
      (by decide) (by decide) (by decide) (by decide) (by decide) (by decide)
      (fun cap hc => Option.noConfusion hc)).1.mpr
    (Or.inl ⟨rfl, by decide, by
      intro x h1 h2
      dsimp only at h1 h2
      have hx : x = 1 ∨ x = 2 := by omega
      rcases hx with h | h <;> (subst h; decide)⟩)
